import Mathlib

/-!
Verification of the resilient content crawler in `twitter_scraper_v2.py`
(class `TwitterScraper`) against its natural-language specification.

The Python source is shallowly embedded: pure fragments become Lean
functions, mutation of `self` state becomes explicit state passing, and
the browser/DOM environment is modelled by explicit environment values
recording what each DOM query or wait would observe.  Python dictionaries
keyed by `tweet_id` are modelled as insertion-ordered association lists,
matching CPython's dict semantics (a key keeps its first-insertion
position, a later assignment overwrites the value).
-/

namespace Scraper

/-- One crawled record, modelling the dictionaries produced by
`TwitterScraper.extract_tweet_data` and those loaded from the persisted
JSON store.  `none` in an `Option` field models the dictionary key being
absent (possible for records loaded from an externally produced store). -/
structure Tweet where
  tweet_id : Option String
  username : String := ""
  text : String := ""
  timestamp : Option String := none
  reply_to_usernames : Option (List String) := none
  thread_position : Option Nat := none
  thread_size : Option Nat := none
  thread_key : Option String := none
  deriving Repr, DecidableEq, Inhabited

/-! ## Dedup & Merge Store (`TwitterScraper.save_results`, lines 536-564)

`save_results` concatenates `existing_data + self.data`, folds the result
into a dict keyed by `tweet_id` (skipping records without the key), and
takes the dict's values as the final list. -/

/-- One assignment `unique_data[k] = v` on an insertion-ordered dict
modelled as an association list: if the key is present its value is
overwritten in place, otherwise the pair is appended. -/
def dictInsert (m : List (String × Tweet)) (k : String) (v : Tweet) :
    List (String × Tweet) :=
  if m.any (fun e => e.1 = k) then
    m.map (fun e => if e.1 = k then (k, v) else e)
  else
    m ++ [(k, v)]

/-- The loop `for tweet in combined_data: if "tweet_id" in tweet:
unique_data[tweet["tweet_id"]] = tweet` (lines 544-546). -/
def buildDict (m : List (String × Tweet)) : List Tweet → List (String × Tweet)
  | [] => m
  | t :: ts =>
    match t.tweet_id with
    | some k => buildDict (dictInsert m k t) ts
    | none => buildDict m ts

/-- `final_data = list(unique_data.values())` applied to the dict built
from `existing_data + self.data` (lines 540-548). -/
def mergeFinal (existing newly : List Tweet) : List Tweet :=
  (buildDict [] (existing ++ newly)).map (fun e => e.2)

/-- Dict lookup observer: the value stored under key `k`. -/
def dictFind (m : List (String × Tweet)) (k : String) : Option Tweet :=
  (m.find? (fun e => e.1 = k)).map Prod.snd

/-- The last record of `ts` carrying id `k` (the "later-applied" record
of the merge claims). -/
def lastWith (ts : List Tweet) (k : String) : Option Tweet :=
  (ts.filter (fun t => t.tweet_id = some k)).getLast?

/-! ## Extraction Strategy Chain (`TwitterScraper.extract_tweet_id`,
lines 92-119)

A rendered post fragment is modelled by what the four DOM queries made by
`extract_tweet_id` would observe.  An outer `Option` models
`query_selector` finding no node; the inner value models the attribute /
inner-text read off the found node (`get_attribute` may itself return
`None`). -/

structure Fragment where
  /-- `query_selector("a.tweet-link")`, then `get_attribute("href")`. -/
  tweetLinkHref : Option (Option String)
  /-- `query_selector(".tweet-body")`, then `get_attribute("data-tweet-id")`. -/
  tweetBodyAttr : Option (Option String)
  /-- `query_selector(".tweet-content")`, then `inner_text()`. -/
  tweetContentText : Option String
  /-- `query_selector(".username")`, then `inner_text()`. -/
  usernameText : Option String
  deriving Repr, DecidableEq

/-- `re.search(r"/status/(\d+)", s)`: find the leftmost position where
`/status/` is followed by at least one digit and return the maximal digit
run (the greedy capture group). -/
def statusSearch : List Char → Option (List Char)
  | [] => none
  | c :: rest =>
    if (c :: rest).take 8 = "/status/".toList then
      let ds := ((c :: rest).drop 8).takeWhile Char.isDigit
      if ds = [] then statusSearch rest else some ds
    else statusSearch rest

/-- `TwitterScraper.extract_tweet_id`.  `h` abstracts Python's builtin
`hash : str -> int` used by method 3; the function is otherwise a direct
transcription of the three ordered fallbacks.  The pure model has no
exceptions, so the `except` branch returning `None` never fires. -/
def extract_tweet_id (h : String → Int) (f : Fragment) : String :=
  -- Method 1: Extract from tweet URL
  let fromLink : Option String :=
    match f.tweetLinkHref with
    | some href =>
      match statusSearch (href.getD "").toList with
      | some ds => some (String.mk ds)
      | none => none
    | none => none
  match fromLink with
  | some tid => tid
  | none =>
    -- Method 2: Extract from data-tweet-id attribute
    let fromAttr : Option String :=
      match f.tweetBodyAttr with
      | some attr =>
        match attr with
        | some tid => if tid = "" then none else some tid
        | none => none
      | none => none
    match fromAttr with
    | some tid => tid
    | none =>
      -- Method 3: Generate hash from content as last resort
      let text := f.tweetContentText.getD ""
      let username := f.usernameText.getD "unknown"
      toString (h (username.take 20 ++ text.take 100))

/-- Observer for the statement of the fallback-order claim: the id method
1 would deliver, `none` when the anchor is missing or the permalink
pattern does not match. -/
def permalinkId (f : Fragment) : Option String :=
  match f.tweetLinkHref with
  | some href => (statusSearch (href.getD "").toList).map String.mk
  | none => none

/-- Observer: the id method 2 would deliver, `none` when the container is
missing or the attribute is absent or empty (Python falsiness). -/
def attrId (f : Fragment) : Option String :=
  match f.tweetBodyAttr with
  | some (some tid) => if tid = "" then none else some tid
  | _ => none

/-- Observer: the method-3 content fingerprint,
`str(hash(f"{username[:20]}{text[:100]}"))`. -/
def contentFingerprint (h : String → Int) (f : Fragment) : String :=
  toString (h ((f.usernameText.getD "unknown").take 20 ++
    (f.tweetContentText.getD "").take 100))

/-! ## Page Extractor (`TwitterScraper.is_new_tweet`, lines 44-48, and
`TwitterScraper.scrape_tweets_from_page`, lines 132-183)

A fragment on a live page is modelled by what the two effectful calls the
per-fragment loop makes would return: `resolvedId` is the result of
`extract_tweet_id` (`none` models its internal exception path returning
`None`), `tweetData` the result of `extract_tweet_data` (`none` models it
returning `None` after an internal error). -/

structure PageFragment where
  resolvedId : Option String
  tweetData : Option Tweet
  deriving Repr, DecidableEq

/-- `TwitterScraper.is_new_tweet`: when `ignore_existing` is set every id
counts as new; otherwise membership in `self.seen_tweets` decides. -/
def is_new_tweet (ignoreExisting : Bool) (seen : List String) (tid : String) :
    Bool :=
  if ignoreExisting then true else !(seen.contains tid)

/-- `self.seen_tweets.add(tweet_id)`: set insertion. -/
def seenAdd (seen : List String) (tid : String) : List String :=
  if seen.contains tid then seen else seen ++ [tid]

/-- The `for idx, tweet in enumerate(tweet_elements)` loop of
`scrape_tweets_from_page` (lines 148-176).  `shouldStop` models
`self.should_stop` (constant here: the asynchronous keyboard flag is not
toggled mid-page in the model).  Returns
`(new_tweets, duplicates, errors, seen_tweets)`. -/
def scrapePageGo (ignoreExisting shouldStop : Bool) :
    List PageFragment → List String → List Tweet → Nat → Nat →
    List Tweet × Nat × Nat × List String
  | [], seen, acc, dups, errs => (acc, dups, errs, seen)
  | f :: rest, seen, acc, dups, errs =>
    if shouldStop then (acc, dups, errs, seen)
    else
      match f.resolvedId with
      | none => scrapePageGo ignoreExisting shouldStop rest seen acc dups (errs + 1)
      | some tid =>
        -- `if not tweet_id:` also treats the empty string as a failure
        if tid = "" then
          scrapePageGo ignoreExisting shouldStop rest seen acc dups (errs + 1)
        else if !(is_new_tweet ignoreExisting seen tid) then
          scrapePageGo ignoreExisting shouldStop rest seen acc (dups + 1) errs
        else
          match f.tweetData with
          | some td =>
            scrapePageGo ignoreExisting shouldStop rest (seenAdd seen tid)
              (acc ++ [td]) dups errs
          | none => scrapePageGo ignoreExisting shouldStop rest seen acc dups errs

/-- `TwitterScraper.scrape_tweets_from_page` on a page whose fragment
container did load (`containerLoaded = false` models the
`wait_for_selector` timeout / page-level error path returning
`([], 0, 0)`). -/
def scrape_tweets_from_page (ignoreExisting shouldStop containerLoaded : Bool)
    (frags : List PageFragment) (seen : List String) :
    List Tweet × Nat × Nat × List String :=
  if containerLoaded = false then ([], 0, 0, seen)
  else if frags = [] then ([], 0, 0, seen)
  else scrapePageGo ignoreExisting shouldStop frags seen [] 0 0

/-! ## Pagination Controller (`TwitterScraper.navigate_to_next_page`,
lines 266-339)

The live page is modelled by what each effectful call would observe or
whether it would raise.  Every Python `except` branch returns `False`, so
the model is a total function into `Bool` (paired with the updated
`self.last_page_content`): the controller cannot raise to its caller. -/

structure PageEnv where
  /-- `page.content()` at line 273 (pre-transition content, strategy 1). -/
  contentBefore : String
  /-- whether any of the three "load more" selectors finds a node. -/
  loadMoreFound : Bool
  /-- the two `page.evaluate` calls of strategy 1 (scroll-into-view and
  click, lines 283-287) succeed; `false` = exception, caught at line 307. -/
  scrollClickOk : Bool
  /-- `wait_for_selector(".timeline-item", attached)` at line 291
  succeeds; `false` = timeout, caught at line 303. -/
  waitSelectorOk : Bool
  /-- `page.content()` at line 294 (post-click content). -/
  contentAfterClick : String
  /-- `page.content()` at line 313 (pre-transition content, strategy 2). -/
  contentBeforeScroll : String
  /-- the count query and scroll trigger of lines 312-315 succeed;
  `false` = exception, caught by the outer handler at line 337. -/
  scrollEvalOk : Bool
  /-- `wait_for_function(count > prev)` at line 319 succeeds; `false` =
  timeout, caught at line 333. -/
  waitFunctionOk : Bool
  /-- `page.content()` at line 325 (post-scroll content). -/
  contentAfterScroll : String
  deriving Repr, DecidableEq

/-- `TwitterScraper.navigate_to_next_page`.  The second component is the
updated `self.last_page_content` (the recorded page fingerprint); note
the source records the PRE-transition content on success. -/
def navigate_to_next_page (env : PageEnv) (lastPageContent : Option String) :
    Bool × Option String :=
  let current := env.contentBefore
  if env.loadMoreFound then
    -- Strategy 1: Click the "Load more" button
    if env.scrollClickOk = false then (false, lastPageContent)
    else if env.waitSelectorOk = false then (false, lastPageContent)
    else
      let newContent := env.contentAfterClick
      if newContent = current ∨ lastPageContent = some newContent then
        (false, lastPageContent)
      else (true, some current)
  else
    -- Strategy 2: Infinite scroll with content verification
    let prev := env.contentBeforeScroll
    if env.scrollEvalOk = false then (false, lastPageContent)
    else if env.waitFunctionOk = false then (false, lastPageContent)
    else
      let newContent := env.contentAfterScroll
      if newContent = prev ∨ lastPageContent = some newContent then
        (false, lastPageContent)
      else (true, some prev)

/-! ## Thread Reconstructor (`TwitterScraper.group_related_tweets`,
lines 341-377)

The Python function mutates the tweet dictionaries in place, and a tweet
appearing in several thread groups is ONE shared object, so the
annotations written by the last group processed are the ones every
occurrence of the record finally carries.  The embedding therefore works
with input positions as object identities: the first pass builds
`threads` (an insertion-ordered dict of handle → member indices) and the
standalone index list; the second pass threads an explicit assignment map
`Nat → Option ThreadAnn` through the groups (later writes overwrite
earlier ones, exactly like the in-place dict mutation), and the final
field values of each emitted occurrence are read off that map. -/

structure ThreadAnn where
  pos : Nat
  size : Nat
  key : String
  deriving Repr, DecidableEq

/-- Index the input list by position: object identity of the Python
dicts. -/
def getTw (tweets : List Tweet) (i : Nat) : Tweet := tweets.getD i default

/-- `threads[username].append(tweet)` with dict autovivification
(lines 351-353): append the index to the handle's member list, creating
the entry at the end on first discovery. -/
def addToThread (ths : List (String × List Nat)) (u : String) (i : Nat) :
    List (String × List Nat) :=
  if ths.any (fun e => e.1 = u) then
    ths.map (fun e => if e.1 = u then (e.1, e.2 ++ [i]) else e)
  else ths ++ [(u, [i])]

/-- First pass (lines 347-355): partition indices into the reply-thread
dict and the standalone list.  A record whose `reply_to_usernames` key is
present iterates the handles (an empty present list joins no group and is
not standalone either — it is dropped, as in the source). -/
def buildThreads :
    List (Nat × Tweet) → List (String × List Nat) → List Nat →
    List (String × List Nat) × List Nat
  | [], ths, sa => (ths, sa)
  | it :: rest, ths, sa =>
    match it.2.reply_to_usernames with
    | some us => buildThreads rest (us.foldl (fun a u => addToThread a u it.1) ths) sa
    | none => buildThreads rest ths (sa ++ [it.1])

/-- `x.get("timestamp", "")`: the sort key of line 364. -/
def tsKey (t : Tweet) : String := t.timestamp.getD ""

/-- Python string comparison: lexicographic on code points. -/
def charListLe : List Char → List Char → Bool
  | [], _ => true
  | _ :: _, [] => false
  | a :: as, b :: bs =>
    if a < b then true else if b < a then false else charListLe as bs

/-- The `<=` used by Python's sort on the string timestamp keys. -/
def tsLeKey (a b : Tweet) : Bool := charListLe (tsKey a).data (tsKey b).data

/-- Sort relation on member indices: compare the underlying tweets'
timestamp keys (Python `list.sort` is stable; so is insertion sort). -/
def tsLeIdx (tweets : List Tweet) (i j : Nat) : Prop :=
  tsLeKey (getTw tweets i) (getTw tweets j) = true

instance (tweets : List Tweet) : DecidableRel (tsLeIdx tweets) :=
  fun i j =>
    inferInstanceAs (Decidable (tsLeKey (getTw tweets i) (getTw tweets j) = true))

/-- Line 363-364: `thread_tweets.sort(key=lambda x: x.get("timestamp", ""))`
guarded by `all("timestamp" in t for t in thread_tweets)`.  Python's sort
is stable; insertion sort is the stable sort used here. -/
def sortMembers (tweets : List Tweet) (ms : List Nat) : List Nat :=
  if ms.all (fun i => (getTw tweets i).timestamp.isSome) then
    List.insertionSort (tsLeIdx tweets) ms
  else ms

/-- The annotation triple written at 0-based sort position `p` of a group
of size `n` for handle `u` (lines 368-370). -/
def groupAnnValue (u : String) (n p : Nat) : ThreadAnn :=
  ⟨p + 1, n, "thread_" ++ u ++ "_" ++ toString n⟩

/-- The annotation writes of lines 367-370 over an enumerated member
list, threaded through the assignment map (later writes overwrite). -/
def writeAnns (u : String) (n : Nat) (l : List (Nat × Nat))
    (ann : Nat → Option ThreadAnn) : Nat → Option ThreadAnn :=
  l.foldl (fun a p => fun j => if j = p.2 then some (groupAnnValue u n p.1) else a j)
    ann

/-- The per-group body of the second pass (lines 361-372): sort when every
member has a timestamp key, then write the three annotations of each
member into the assignment map and append the group to the output order. -/
def processGroup (tweets : List Tweet) (ann : Nat → Option ThreadAnn)
    (ordIdx : List Nat) (g : String × List Nat) :
    (Nat → Option ThreadAnn) × List Nat :=
  let sorted := sortMembers tweets g.2
  (writeAnns g.1 sorted.length sorted.enum ann, ordIdx ++ sorted)

/-- Second pass (lines 358-372): process the thread groups in discovery
order, threading the assignment map. -/
def processGroups (tweets : List Tweet) :
    List (String × List Nat) → (Nat → Option ThreadAnn) → List Nat →
    (Nat → Option ThreadAnn) × List Nat
  | [], ann, ordIdx => (ann, ordIdx)
  | g :: rest, ann, ordIdx =>
    let st := processGroup tweets ann ordIdx g
    processGroups tweets rest st.1 st.2

/-- Write the final annotation values into a tweet (`none` = the keys were
never assigned: a standalone record). -/
def renderTweet (tweets : List Tweet) (ann : Nat → Option ThreadAnn) (i : Nat) :
    Tweet :=
  match ann i with
  | some a =>
    { getTw tweets i with
        thread_position := some a.pos
        thread_size := some a.size
        thread_key := some a.key }
  | none => getTw tweets i

/-- `TwitterScraper.group_related_tweets`. -/
def group_related_tweets (tweets : List Tweet) : List Tweet :=
  let bt := buildThreads tweets.enum [] []
  let pg := processGroups tweets bt.1 (fun _ => none) []
  (pg.2 ++ bt.2).map (renderTweet tweets pg.1)

/-! ## Crawl Orchestrator (`TwitterScraper.scrape_twitter`, lines 379-534)

One iteration of the `while` loop (lines 471-505) consumes one event of a
script describing what the live environment would deliver: either a page
result (the triple returned by `scrape_tweets_from_page` plus whether
`navigate_to_next_page` succeeds), or an unexpected fatal exception
escaping to the outer `except` handler at line 524.  The asynchronous
spacebar flag is not modelled (`should_stop` stays `False`); an exhausted
script ends the observation.  `maxConsecutiveEmpty` is the source
constant `max_consecutive_empty = 10` (line 469). -/

inductive PageEvent where
  /-- one loop iteration: the page yields `newTweets` (with duplicate and
  error counts) and pagination then reports `paginationOk`. -/
  | page (newTweets : List Tweet) (dups errs : Nat) (paginationOk : Bool)
  /-- an unexpected fatal exception is raised during this iteration. -/
  | fatal
  deriving Repr, DecidableEq

def maxConsecutiveEmpty : Nat := 10

/-- The main scraping loop.  `.ok` carries `self.data` at normal loop
exit; `.error` carries `self.data` at the moment a fatal exception
escapes the loop (the Python instance attribute survives the exception,
but control transfers to the outer handler). -/
def scrapeLoop (limit : Nat) :
    List PageEvent → List Tweet → Nat → Except (List Tweet) (List Tweet)
  | [], data, _ => .ok data
  | ev :: rest, data, consecEmpty =>
    if limit ≤ data.length then .ok data  -- while-condition fails
    else
      match ev with
      | .fatal => .error data
      | .page newTweets _ _ paginationOk =>
        if newTweets = [] then
          -- consecutive_empty_pages += 1, then the threshold check
          if maxConsecutiveEmpty ≤ consecEmpty + 1 then .ok data
          else if limit ≤ data.length then .ok data
          else if paginationOk then scrapeLoop limit rest data (consecEmpty + 1)
          else if maxConsecutiveEmpty ≤ consecEmpty + 2 then .ok data
          else scrapeLoop limit rest data (consecEmpty + 2)
        else
          -- Only add up to the remaining needed tweets (lines 479-482)
          let data2 := data ++ newTweets.take (limit - data.length)
          if limit ≤ data2.length then .ok data2
          else if paginationOk then scrapeLoop limit rest data2 0
          else if maxConsecutiveEmpty ≤ 1 then .ok data2
          else scrapeLoop limit rest data2 1

/-- The observable outcome of `scrape_twitter`.  `saved` records whether
Finalizing ran (`group_related_tweets` followed by `save_results`);
`progressCalls` records every invocation of the injected progress hook
`self._update_progress` with its `(current, total)` arguments —
`scrape_twitter` contains no call to the hook, so no element is ever
appended; `fatalSnapshot` records the diagnostic screenshot taken by the
outer `except` handler. -/
structure ScrapeOutcome where
  success : Bool
  data : List Tweet
  saved : Bool
  progressCalls : List (Nat × Nat)
  fatalSnapshot : Bool
  deriving Repr, DecidableEq

/-- `TwitterScraper.scrape_twitter` after source acquisition.
`connected` tells whether some Nitter instance succeeded (lines 441-462);
on total failure the function returns `False` before the loop.  After a
normal loop exit, a non-empty `self.data` is grouped and saved (lines
513-519); an empty one returns `False` unsaved (lines 520-522); a fatal
exception reaches line 524: screenshot, `return False`, no save. -/
def scrape_twitter (limit : Nat) (connected : Bool)
    (events : List PageEvent) : ScrapeOutcome :=
  if connected = false then
    { success := false, data := [], saved := false, progressCalls := [],
      fatalSnapshot := false }
  else
    match scrapeLoop limit events [] 0 with
    | .ok data =>
      if data = [] then
        { success := false, data := data, saved := false, progressCalls := [],
          fatalSnapshot := false }
      else
        { success := true, data := group_related_tweets data, saved := true,
          progressCalls := [], fatalSnapshot := false }
    | .error data =>
      { success := false, data := data, saved := false, progressCalls := [],
        fatalSnapshot := true }

/-! ## Persisted Store write (`TwitterScraper.save_results`, lines 550-553)

`open(self.data_file, "w")` truncates the store file immediately and
`json.dump` then streams the serialized text into it.  The file system is
modelled by the store file's content; a write that fails after `k`
characters leaves the truncated file holding only that prefix.
`serialize` abstracts `json.dumps` of the merged record list. -/

/-- The store file content after `save_results` runs over a prior file
content, given the serializer and an optional failure point (`some k` =
the write raises after `k` characters; the outer `except` at line 562
catches it and `save_results` returns `False`).  The `prior` content is
destroyed by the truncating open before any byte of the payload lands,
so it does not occur in the result.  First component: final file
content; second: the return value of `save_results`. -/
def save_results_write (serialize : List Tweet → String)
    (existing newly : List Tweet) (_prior : String) (failAfter : Option Nat) :
    String × Bool :=
  let payload := serialize (mergeFinal existing newly)
  let truncated := ""  -- `open(self.data_file, "w")` empties the file
  match failAfter with
  | none => (truncated ++ payload, true)
  | some k => (truncated ++ payload.take k, false)

/-! ## Specification-side definitions

These follow the spec's words (§4.5, §4.6) and are compared with the
source-derived functions above; they are NOT translations of the code. -/

/-- Whether a record names handle `u` among its reply targets. -/
def hasHandle (u : String) (t : Tweet) : Bool :=
  match t.reply_to_usernames with
  | some us => decide (u ∈ us)
  | none => false

/-- Sort relation of the spec: by `published_at` (here the `timestamp`
key, empty when absent), under the same code-point-lexicographic string
order the source's sort uses. -/
def tsLe (a b : Tweet) : Prop := tsLeKey a b = true

instance : DecidableRel tsLe :=
  fun a b => inferInstanceAs (Decidable (tsLeKey a b = true))

/-- One record's contribution to the discovered-handle list: append each
of its reply-target handles not yet known. -/
def specHandleStep (acc : List String) (t : Tweet) : List String :=
  match t.reply_to_usernames with
  | some us => us.foldl (fun a u => if u ∈ a then a else a ++ [u]) acc
  | none => acc

/-- Spec §4.6: the distinct reply-target handles in discovery order. -/
def specThreadHandles (tweets : List Tweet) : List String :=
  tweets.foldl specHandleStep []

/-- Spec §4.6: all records naming handle `u`, in discovery order. -/
def specGroupOf (tweets : List Tweet) (u : String) : List Tweet :=
  tweets.filter (hasHandle u)

/-- Spec §4.6: sort a group by timestamp when every member has one
(stable), then annotate each member with its 1-based position, the group
size, and the `(handle, size)`-derived key. -/
def specAnnotGroup (u : String) (g : List Tweet) : List Tweet :=
  let g2 := if g.all (fun t => t.timestamp.isSome) then List.insertionSort tsLe g else g
  g2.enum.map (fun p =>
    { p.2 with
        thread_position := some (p.1 + 1)
        thread_size := some g2.length
        thread_key := some ("thread_" ++ u ++ "_" ++ toString g2.length) })

/-- Spec §4.6, final order: all thread groups in handle-discovery order,
then all standalone records in discovery order. -/
def group_related_specification (tweets : List Tweet) : List Tweet :=
  ((specThreadHandles tweets).map
      (fun u => specAnnotGroup u (specGroupOf tweets u))).flatten
    ++ tweets.filter (fun t => t.reply_to_usernames = none)

/-! Infrastructure for relating `buildThreads` to the specification view. -/

/-- The member-index list of handle `u` in the thread dict. -/
def thGet (ths : List (String × List Nat)) (u : String) : List Nat :=
  ((ths.find? (fun e => e.1 = u)).map Prod.snd).getD []

/-- Indices (object identities) of the records naming handle `u`, in
discovery order. -/
def idxWith (its : List (Nat × Tweet)) (u : String) : List Nat :=
  (its.filter (fun it => hasHandle u it.2)).map Prod.fst

/-- The handles newly discovered while scanning `its`, given the handles
`ks` already known, in discovery order. -/
def handlesDiscovered (ks : List String) : List (Nat × Tweet) → List String
  | [] => []
  | it :: rest =>
    match it.2.reply_to_usernames with
    | some us =>
      let fresh := us.foldl
        (fun a u => if u ∈ ks ∨ u ∈ a then a else a ++ [u]) []
      fresh ++ handlesDiscovered (ks ++ fresh) rest
    | none => handlesDiscovered ks rest

/-- The collected list at loop exit, whether the exit was normal or by a
fatal exception (the instance attribute `self.data` in both cases). -/
def collectedOf (r : Except (List Tweet) (List Tweet)) : List Tweet :=
  match r with
  | .ok d => d
  | .error d => d

/-! ## Concrete example values used by witnesses and counterexamples -/

/-- Spec §8 thread-grouping example, first record:
`{id:1, reply_target_handles:[a], ts:"2"}`. -/
def exThreadT1 : Tweet :=
  { tweet_id := some "1", reply_to_usernames := some ["a"], timestamp := some "2" }

/-- Spec §8 thread-grouping example, second record:
`{id:2, reply_target_handles:[a], ts:"1"}`. -/
def exThreadT2 : Tweet :=
  { tweet_id := some "2", reply_to_usernames := some ["a"], timestamp := some "1" }

/-- A record replying to two handles at once (allowed by §4.6). -/
def exMulti1 : Tweet :=
  { tweet_id := some "1", reply_to_usernames := some ["a", "b"], timestamp := some "1" }

/-- A record replying to handle `a` only. -/
def exMulti2 : Tweet :=
  { tweet_id := some "2", reply_to_usernames := some ["a"], timestamp := some "2" }

/-- A persisted record with id 1 (old content). -/
def exP1 : Tweet := { tweet_id := some "1", text := "old" }

/-- A freshly collected record with id 1 (new content). -/
def exP1b : Tweet := { tweet_id := some "1", text := "new" }

/-- A persisted record with id 2. -/
def exP2 : Tweet := { tweet_id := some "2" }

/-- A toy serializer for the persisted store: ids joined with `;`. -/
def serializeIds (ts : List Tweet) : String :=
  String.join (ts.map (fun t => (t.tweet_id.getD "") ++ ";"))

/-- A page fragment resolving to id 42 with extractable data. -/
def exFrag : PageFragment :=
  { resolvedId := some "42", tweetData := some { tweet_id := some "42" } }

/-- A fragment exposing both a valid permalink pattern and a distinct
identifier attribute. -/
def exFragmentBoth : Fragment :=
  { tweetLinkHref := some (some "/bob/status/12345#m")
    tweetBodyAttr := some (some "99999")
    tweetContentText := some "hello world"
    usernameText := some "@bob" }

/-- A page environment: load-more control present, all actions succeed,
but the post-click content equals the pre-transition content. -/
def exStallEnv : PageEnv :=
  { contentBefore := "PAGE-A"
    loadMoreFound := true
    scrollClickOk := true
    waitSelectorOk := true
    contentAfterClick := "PAGE-A"
    contentBeforeScroll := "PAGE-A"
    scrollEvalOk := true
    waitFunctionOk := true
    contentAfterScroll := "PAGE-B" }

/-- A crawl script: one page yielding one record, then a fatal exception. -/
def exScriptFatal : List PageEvent :=
  [.page [exP1] 0 0 true, .fatal]

/-- A crawl script: a single page yielding three records at once. -/
def exScriptBig : List PageEvent :=
  [.page [exP1, exP1b, exP2] 0 0 true]

/-! # Theorems -/

/-- `extract_tweet_id` equals the ordered fallback chain of its three
observers. -/
theorem extract_tweet_id_chain (h : String → Int) (f : Fragment) :
    extract_tweet_id h f =
      match permalinkId f with
      | some i => i
      | none =>
        match attrId f with
        | some i => i
        | none => contentFingerprint h f := by
  rcases f with ⟨link, battr, ctext, uname⟩
  cases link with
  | none =>
    cases battr with
    | none => rfl
    | some attr =>
      cases attr with
      | none => rfl
      | some tid =>
        by_cases htid : tid = "" <;>
          simp [extract_tweet_id, permalinkId, attrId, contentFingerprint, htid]
  | some href =>
    cases hs : statusSearch (href.getD "").data with
    | some ds => simp [extract_tweet_id, permalinkId, String.toList, hs]
    | none =>
      cases battr with
      | none =>
        simp [extract_tweet_id, permalinkId, attrId, contentFingerprint,
          String.toList, hs]
      | some attr =>
        cases attr with
        | none =>
          simp [extract_tweet_id, permalinkId, attrId, contentFingerprint,
            String.toList, hs]
        | some tid =>
          by_cases htid : tid = "" <;>
            simp [extract_tweet_id, permalinkId, attrId, contentFingerprint,
              String.toList, hs, htid]

/-- C5: id resolution tries the strategies in a fixed order — the
permalink pattern from the anchor href first, then the dedicated
identifier attribute on the container, then the content fingerprint of
(author truncated to 20 chars, body truncated to 100 chars).  In
particular, when the permalink pattern matches, its id is returned
whatever the identifier attribute holds, and the fingerprint is used
exactly when both earlier methods fail. -/
theorem C5_extraction_fallback_order (h : String → Int) (f : Fragment) :
    (∀ i, permalinkId f = some i → extract_tweet_id h f = i) ∧
    (permalinkId f = none →
      ∀ i, attrId f = some i → extract_tweet_id h f = i) ∧
    (permalinkId f = none → attrId f = none →
      extract_tweet_id h f = contentFingerprint h f) := by
  refine ⟨?_, ?_, ?_⟩
  · intro i hi
    rw [extract_tweet_id_chain, hi]
  · intro hp i ha
    rw [extract_tweet_id_chain, hp, ha]
  · intro hp ha
    rw [extract_tweet_id_chain, hp, ha]

/-- Witness for C5 at `exFragmentBoth`: the permalink pattern yields
`12345`, the identifier attribute holds the distinct id `99999`, and
extraction returns the permalink-derived id. -/
theorem C5_extraction_fallback_order_witness :
    permalinkId exFragmentBoth = some "12345" ∧
    attrId exFragmentBoth = some "99999" ∧
    extract_tweet_id (fun _ => 0) exFragmentBoth = "12345" := by
  refine ⟨by decide, by decide, ?_⟩
  exact (C5_extraction_fallback_order (fun _ => 0) exFragmentBoth).1 "12345" (by decide)

/-- C6: for every pagination transition, if the post-transition page
content is identical to the pre-transition content or to the recorded
last-page fingerprint, `navigate_to_next_page` reports failure; and every
wait timeout or action failure on the taken strategy also reports
failure.  The function is total into `Bool` (every Python `except` branch
returns `False`), so it never raises to its caller. -/
theorem C6_pagination_stall_and_failure (env : PageEnv) (last : Option String) :
    (env.loadMoreFound = true → env.scrollClickOk = true →
      env.waitSelectorOk = true →
      (env.contentAfterClick = env.contentBefore ∨
        last = some env.contentAfterClick) →
      (navigate_to_next_page env last).1 = false) ∧
    (env.loadMoreFound = false → env.scrollEvalOk = true →
      env.waitFunctionOk = true →
      (env.contentAfterScroll = env.contentBeforeScroll ∨
        last = some env.contentAfterScroll) →
      (navigate_to_next_page env last).1 = false) ∧
    (env.loadMoreFound = true →
      (env.scrollClickOk = false ∨ env.waitSelectorOk = false) →
      (navigate_to_next_page env last).1 = false) ∧
    (env.loadMoreFound = false →
      (env.scrollEvalOk = false ∨ env.waitFunctionOk = false) →
      (navigate_to_next_page env last).1 = false) := by
  refine ⟨?_, ?_, ?_, ?_⟩
  · intro hl hc hw hstall
    simp [navigate_to_next_page, hl, hc, hw, hstall]
  · intro hl hc hw hstall
    simp [navigate_to_next_page, hl, hc, hw, hstall]
  · intro hl hfail
    rcases hfail with hf | hf <;> simp [navigate_to_next_page, hl, hf]
  · intro hl hfail
    rcases hfail with hf | hf <;> simp [navigate_to_next_page, hl, hf]

/-- Witness for C6 at `exStallEnv`: the load-more strategy succeeds but
delivers content identical to the pre-transition content, and `advance`
returns false. -/
theorem C6_pagination_stall_and_failure_witness :
    (navigate_to_next_page exStallEnv none).1 = false :=
  (C6_pagination_stall_and_failure exStallEnv none).1 rfl rfl rfl (Or.inl rfl)

/-- C8 (amended): provided the session's `ignore_existing` flag is off
and no stop was requested, a fragment whose non-empty resolved id is
already in `seen_tweets` is classified as a duplicate: the duplicate
count is incremented and processing continues with `new_records`,
`seen_tweets` and the error count unchanged. -/
theorem C8_page_extractor_duplicate (f : PageFragment) (rest : List PageFragment)
    (seen : List String) (acc : List Tweet) (dups errs : Nat) (tid : String)
    (hid : f.resolvedId = some tid) (hne : tid ≠ "")
    (hseen : seen.contains tid = true) :
    scrapePageGo false false (f :: rest) seen acc dups errs =
      scrapePageGo false false rest seen acc (dups + 1) errs := by
  have hmem : tid ∈ seen := by simpa using hseen
  simp [scrapePageGo, hid, hne, is_new_tweet, hseen, hmem]

/-- C8 witness: a page whose sole fragment resolves to the already-seen
id 42 yields no new records and one duplicate when `ignore_existing` is
off. -/
theorem C8_page_extractor_duplicate_witness :
    scrapePageGo false false [exFrag] ["42"] [] 0 0 = ([], 1, 0, ["42"]) := by
  rw [C8_page_extractor_duplicate exFrag [] ["42"] [] 0 0 "42" rfl
    (by decide) (by decide)]
  rfl

/-- C8 counterexample: with `ignore_existing` set, `is_new_tweet` ignores
`seen_tweets` entirely, so a fragment whose resolved id 42 is already in
the seen set is NOT classified as a duplicate — it is appended to
`new_records` with a duplicate count of zero, contradicting the claim
that such a fragment is always counted as a duplicate and skipped. -/
theorem C8_page_extractor_duplicate_counterexample :
    (scrape_tweets_from_page true false true [exFrag] ["42"]).2.1 = 0 ∧
    (scrape_tweets_from_page true false true [exFrag] ["42"]).1 =
      [{ tweet_id := some "42" }] := by
  constructor <;> rfl

/-- C10: at every iteration of the crawl loop the collected list never
exceeds the configured tweet limit — a page yielding more new records
than are still needed is truncated to the remaining count — and this
bound holds at loop exit whether the exit is normal or fatal. -/
theorem C10_collected_le_limit (limit : Nat) (events : List PageEvent)
    (data : List Tweet) (consecEmpty : Nat) (h : data.length ≤ limit) :
    (collectedOf (scrapeLoop limit events data consecEmpty)).length ≤ limit := by
  induction events generalizing data consecEmpty with
  | nil => simpa [scrapeLoop, collectedOf] using h
  | cons ev rest ih =>
    rw [scrapeLoop.eq_def]
    dsimp only
    split
    · simpa [collectedOf] using h
    · rename_i hfull
      cases ev with
      | fatal => simpa [collectedOf] using h
      | page newTweets d e pagOk =>
        dsimp only
        by_cases hempty : newTweets = []
        · rw [if_pos hempty]
          split
          · simpa [collectedOf] using h
          · split
            · exact ih data (consecEmpty + 1) h
            · split
              · simpa [collectedOf] using h
              · exact ih data (consecEmpty + 2) h
        · rw [if_neg hempty]
          have hlen : (data ++ newTweets.take (limit - data.length)).length ≤ limit := by
            simp only [List.length_append, List.length_take]
            omega
          split
          · simpa [collectedOf] using hlen
          · split
            · exact ih _ 0 hlen
            · split
              · simpa [collectedOf] using hlen
              · exact ih _ 1 hlen

/-- C10 witness: a script delivering three records at once against a
limit of 2 collects at most 2 records. -/
theorem C10_collected_le_limit_witness :
    ([] : List Tweet).length ≤ 2 ∧
      (collectedOf (scrapeLoop 2 exScriptBig [] 0)).length ≤ 2 :=
  ⟨by decide, C10_collected_le_limit 2 exScriptBig [] 0 (by decide)⟩

/-- C1 (amended): when an unexpected fatal condition interrupts the crawl
loop, the orchestrator captures a diagnostic snapshot and returns failure
WITHOUT running Finalizing: the records collected in-session before the
failure are not persisted, even when there is at least one of them. -/
theorem C1_fatal_skips_finalizing (limit : Nat) (events : List PageEvent)
    (d : List Tweet) (hfatal : scrapeLoop limit events [] 0 = .error d) :
    scrape_twitter limit true events =
      { success := false, data := d, saved := false, progressCalls := [],
        fatalSnapshot := true } := by
  simp [scrape_twitter, hfatal]

/-- C1 witness: on the fatal script the fatal branch is taken with the
one collected record unsaved. -/
theorem C1_fatal_skips_finalizing_witness :
    scrapeLoop 5 exScriptFatal [] 0 = .error [exP1] ∧
      scrape_twitter 5 true exScriptFatal =
        { success := false, data := [exP1], saved := false,
          progressCalls := [], fatalSnapshot := true } :=
  ⟨rfl, C1_fatal_skips_finalizing 5 exScriptFatal [exP1] rfl⟩

/-- C1 counterexample: a run that collects one record on its first page
and then hits a fatal condition ends with one collected record but with
Finalizing never run (`saved = false`), refuting the claim that
Finalizing is still attempted whenever records were collected
in-session. -/
theorem C1_fatal_skips_finalizing_counterexample :
    (scrape_twitter 5 true exScriptFatal).data.length = 1 ∧
    (scrape_twitter 5 true exScriptFatal).saved = false ∧
    (scrape_twitter 5 true exScriptFatal).success = false :=
  ⟨rfl, rfl, rfl⟩

/-- C2 (amended): the session-end store write is NOT atomic.  The file is
opened in truncating write mode and the serialization of the merged set
is written in place: a completed write leaves exactly the new
serialization, but a write failing after `k` characters leaves the
truncated file holding just that prefix of the NEW payload — the prior
content never survives a failed write; the failure is caught and
`save_results` returns `False` instead of raising. -/
theorem C2_truncating_write (serialize : List Tweet → String)
    (existing newly : List Tweet) (prior : String) :
    save_results_write serialize existing newly prior none =
      (serialize (mergeFinal existing newly), true) ∧
    ∀ k, save_results_write serialize existing newly prior (some k) =
      ((serialize (mergeFinal existing newly)).take k, false) := by
  constructor
  · simp [save_results_write]
  · intro k
    simp [save_results_write]

/-- C2 counterexample: with the prior store holding the serialization of
record 1 and a write of the merged store (records 1 and 2) failing after
3 characters, the resulting file is neither the prior content nor the
full new serialization — a subsequent run observes a partial file,
refuting atomicity. -/
theorem C2_truncating_write_counterexample :
    (save_results_write serializeIds [exP1] [exP2] (serializeIds [exP1])
        (some 3)).1 ≠ serializeIds [exP1] ∧
    (save_results_write serializeIds [exP1] [exP2] (serializeIds [exP1])
        (some 3)).1 ≠ serializeIds (mergeFinal [exP1] [exP2]) := by
  constructor <;> decide

/-- C3: the crawl loop never invokes the injected progress hook
`self._update_progress` — no call site exists anywhere in
`scrape_twitter` — so the per-page `(current, total)` progress callbacks
promised by the claim (and expected by the hook installed in
`streamlit_app.py`, lines 60-66) never happen, on any run whatsoever. -/
theorem C3_progress_hook_never_called (limit : Nat) (connected : Bool)
    (events : List PageEvent) :
    (scrape_twitter limit connected events).progressCalls = [] := by
  unfold scrape_twitter
  split
  · rfl
  · split
    · split
      · rfl
      · rfl
    · rfl

/-! ### Association-list dict lemmas for the merge store -/

theorem any_key_iff (m : List (String × Tweet)) (k : String) :
    m.any (fun e => e.1 = k) = true ↔ k ∈ m.map Prod.fst := by
  simp [List.any_eq_true, List.mem_map]

theorem dictInsert_cons_ne (e : String × Tweet) (m : List (String × Tweet))
    (k : String) (v : Tweet) (he : e.1 ≠ k) :
    dictInsert (e :: m) k v = e :: dictInsert m k v := by
  unfold dictInsert
  cases ha : m.any (fun x => x.1 = k) <;> simp [List.any_cons, he, ha]

theorem keys_dictInsert_present (m : List (String × Tweet)) (k : String)
    (v : Tweet) (ha : m.any (fun e => e.1 = k) = true) :
    (dictInsert m k v).map Prod.fst = m.map Prod.fst := by
  simp only [dictInsert, ha, if_true]
  rw [List.map_map]
  apply List.map_congr_left
  intro e _
  by_cases he : e.1 = k <;> simp [he]

theorem keys_dictInsert_absent (m : List (String × Tweet)) (k : String)
    (v : Tweet) (ha : m.any (fun e => e.1 = k) = false) :
    (dictInsert m k v).map Prod.fst = m.map Prod.fst ++ [k] := by
  simp [dictInsert, ha]

theorem mem_keys_dictInsert (m : List (String × Tweet)) (k : String) (v : Tweet) :
    k ∈ (dictInsert m k v).map Prod.fst := by
  cases ha : m.any (fun e => e.1 = k)
  · rw [keys_dictInsert_absent m k v ha]
    simp
  · rw [keys_dictInsert_present m k v ha]
    exact (any_key_iff m k).1 ha

theorem mem_keys_dictInsert_of_mem (m : List (String × Tweet)) (k0 : String)
    (v : Tweet) (k : String) (h : k ∈ m.map Prod.fst) :
    k ∈ (dictInsert m k0 v).map Prod.fst := by
  cases ha : m.any (fun e => e.1 = k0)
  · rw [keys_dictInsert_absent m k0 v ha]
    exact List.mem_append_left _ h
  · rw [keys_dictInsert_present m k0 v ha]
    exact h

theorem keys_nodup_dictInsert (m : List (String × Tweet)) (k : String)
    (v : Tweet) (h : (m.map Prod.fst).Nodup) :
    ((dictInsert m k v).map Prod.fst).Nodup := by
  cases ha : m.any (fun e => e.1 = k)
  · rw [keys_dictInsert_absent m k v ha]
    have hk : k ∉ m.map Prod.fst := by
      intro hmem
      rw [← any_key_iff] at hmem
      rw [ha] at hmem
      exact Bool.false_ne_true hmem
    simp [List.nodup_append, h, hk]
  · rw [keys_dictInsert_present m k v ha]
    exact h

theorem dictFind_dictInsert_self (m : List (String × Tweet)) (k : String)
    (v : Tweet) : dictFind (dictInsert m k v) k = some v := by
  induction m with
  | nil => simp [dictInsert, dictFind]
  | cons e m ih =>
    by_cases he : e.1 = k
    · have ha : (e :: m).any (fun x => x.1 = k) = true := by
        simp [List.any_cons, he]
      simp [dictInsert, ha, dictFind, he]
    · rw [dictInsert_cons_ne e m k v he]
      simpa [dictFind, he] using ih

theorem find?_map_overwrite (m : List (String × Tweet)) (k k2 : String)
    (v : Tweet) (hne : k2 ≠ k) :
    (m.map (fun e => if e.1 = k then (k, v) else e)).find? (fun e => e.1 = k2) =
      m.find? (fun e => e.1 = k2) := by
  induction m with
  | nil => rfl
  | cons e m ih =>
    by_cases he : e.1 = k
    · have h1 : ¬((k : String) = k2) := fun h => hne h.symm
      have h2 : ¬(e.1 = k2) := by
        rw [he]
        exact h1
      simp [he, h1, h2, ih]
    · by_cases he2 : e.1 = k2 <;> simp [he, he2, hne, ih]

theorem dictFind_dictInsert_ne (m : List (String × Tweet)) (k k2 : String)
    (v : Tweet) (hne : k2 ≠ k) :
    dictFind (dictInsert m k v) k2 = dictFind m k2 := by
  unfold dictInsert
  cases ha : m.any (fun x => x.1 = k)
  · have h1 : ¬((k : String) = k2) := fun h => hne h.symm
    simp [ha, dictFind, List.find?_append, h1, Option.or_none]
  · simp [ha, dictFind, find?_map_overwrite m k k2 v hne]

theorem buildDict_append (ts us : List Tweet) (m : List (String × Tweet)) :
    buildDict m (ts ++ us) = buildDict (buildDict m ts) us := by
  induction ts generalizing m with
  | nil => rfl
  | cons t ts ih =>
    cases ht : t.tweet_id <;> simp [buildDict, ht, ih]

theorem entries_wf_dictInsert (m : List (String × Tweet)) (k : String)
    (v : Tweet) (hm : ∀ e ∈ m, e.2.tweet_id = some e.1)
    (hv : v.tweet_id = some k) :
    ∀ e ∈ dictInsert m k v, e.2.tweet_id = some e.1 := by
  intro e he
  unfold dictInsert at he
  split at he
  · rw [List.mem_map] at he
    obtain ⟨e0, he0, heq⟩ := he
    by_cases h0 : e0.1 = k
    · rw [if_pos h0] at heq
      rw [← heq]
      exact hv
    · rw [if_neg h0] at heq
      rw [← heq]
      exact hm e0 he0
  · rw [List.mem_append] at he
    rcases he with h | h
    · exact hm e h
    · simp at h
      rw [h]
      exact hv

theorem entries_wf_buildDict (ts : List Tweet) :
    ∀ m, (∀ e ∈ m, e.2.tweet_id = some e.1) →
      ∀ e ∈ buildDict m ts, e.2.tweet_id = some e.1 := by
  induction ts with
  | nil =>
    intro m hm
    simpa [buildDict] using hm
  | cons t ts ih =>
    intro m hm
    cases ht : t.tweet_id with
    | none =>
      rw [buildDict, ht]
      exact ih m hm
    | some k =>
      rw [buildDict, ht]
      exact ih (dictInsert m k t) (entries_wf_dictInsert m k t hm ht)

theorem keys_nodup_buildDict (ts : List Tweet) :
    ∀ m, (m.map Prod.fst).Nodup → ((buildDict m ts).map Prod.fst).Nodup := by
  induction ts with
  | nil =>
    intro m hm
    simpa [buildDict] using hm
  | cons t ts ih =>
    intro m hm
    cases ht : t.tweet_id with
    | none =>
      rw [buildDict, ht]
      exact ih m hm
    | some k =>
      rw [buildDict, ht]
      exact ih (dictInsert m k t) (keys_nodup_dictInsert m k t hm)

theorem mem_keys_buildDict_mono (ts : List Tweet) :
    ∀ m k, k ∈ m.map Prod.fst → k ∈ (buildDict m ts).map Prod.fst := by
  induction ts with
  | nil =>
    intro m k h
    simpa [buildDict] using h
  | cons t ts ih =>
    intro m k h
    cases ht : t.tweet_id with
    | none =>
      rw [buildDict, ht]
      exact ih m k h
    | some k0 =>
      rw [buildDict, ht]
      exact ih (dictInsert m k0 t) k (mem_keys_dictInsert_of_mem m k0 t k h)

theorem getLast?_cons_or {α : Type} (a : α) (l : List α) :
    (a :: l).getLast? = l.getLast?.or (some a) := by
  induction l generalizing a with
  | nil => simp
  | cons b l ih =>
    rw [List.getLast?_cons_cons, ih b]
    cases hl : l.getLast? <;> simp

theorem dictFind_buildDict (ts : List Tweet) :
    ∀ m k, dictFind (buildDict m ts) k = (lastWith ts k).or (dictFind m k) := by
  induction ts with
  | nil =>
    intro m k
    simp [buildDict, lastWith]
  | cons t ts ih =>
    intro m k
    cases ht : t.tweet_id with
    | none =>
      have h0 : buildDict m (t :: ts) = buildDict m ts := by
        rw [buildDict, ht]
      have h1 : lastWith (t :: ts) k = lastWith ts k := by
        unfold lastWith
        rw [List.filter_cons]
        simp [ht]
      rw [h0, h1, ih m k]
    | some k0 =>
      have h0 : buildDict m (t :: ts) = buildDict (dictInsert m k0 t) ts := by
        rw [buildDict, ht]
      rw [h0, ih (dictInsert m k0 t) k]
      by_cases hk : k0 = k
      · subst hk
        rw [dictFind_dictInsert_self]
        have hfil : lastWith (t :: ts) k0 = (lastWith ts k0).or (some t) := by
          unfold lastWith
          rw [List.filter_cons, if_pos (by simp [ht]), getLast?_cons_or]
        rw [hfil]
        cases hl : lastWith ts k0 <;> simp
      · rw [dictFind_dictInsert_ne m k0 k t (fun h => hk h.symm)]
        have h1 : lastWith (t :: ts) k = lastWith ts k := by
          unfold lastWith
          rw [List.filter_cons]
          simp [ht, hk]
        rw [h1]

theorem keys_decomp (l : List (String × Tweet)) (k : String)
    (hmem : k ∈ l.map Prod.fst) (hnd : (l.map Prod.fst).Nodup) :
    ∃ pre v post, l = pre ++ (k, v) :: post ∧
      k ∉ pre.map Prod.fst ∧ k ∉ post.map Prod.fst := by
  induction l with
  | nil => simp at hmem
  | cons e l ih =>
    rw [List.map_cons, List.nodup_cons] at hnd
    obtain ⟨hknot, hnd2⟩ := hnd
    by_cases he : e.1 = k
    · refine ⟨[], e.2, l, ?_, by simp, ?_⟩
      · rw [List.nil_append, ← he]
      · rw [← he]
        exact hknot
    · rw [List.map_cons, List.mem_cons] at hmem
      rcases hmem with h | h
      · exact absurd h.symm he
      · obtain ⟨pre, v, post, h1, h2, h3⟩ := ih h hnd2
        refine ⟨e :: pre, v, post, by rw [h1, List.cons_append], ?_, h3⟩
        rw [List.map_cons, List.mem_cons]
        rintro (hc | hc)
        · exact he hc.symm
        · exact h2 hc

theorem map_overwrite_id (l : List (String × Tweet)) (k : String) (t : Tweet)
    (h : k ∉ l.map Prod.fst) :
    l.map (fun e => if e.1 = k then (k, t) else e) = l := by
  have h2 : ∀ e ∈ l, (if e.1 = k then (k, t) else e) = e := by
    intro e he
    rw [if_neg]
    intro hc
    exact h (hc ▸ List.mem_map_of_mem Prod.fst he)
  rw [List.map_congr_left h2]
  simp

theorem not_mem_keys_map_overwrite (l : List (String × Tweet)) (k0 : String)
    (t : Tweet) (k : String) (h : k ∉ l.map Prod.fst) :
    k ∉ (l.map (fun e => if e.1 = k0 then (k0, t) else e)).map Prod.fst := by
  intro hc
  rw [List.map_map, List.mem_map] at hc
  obtain ⟨e, he, heq⟩ := hc
  by_cases h0 : e.1 = k0
  · simp only [Function.comp, if_pos h0] at heq
    exact h (heq ▸ h0 ▸ List.mem_map_of_mem Prod.fst he)
  · simp only [Function.comp, if_neg h0] at heq
    exact h (heq ▸ List.mem_map_of_mem Prod.fst he)

theorem dictInsert_middle (pre post : List (String × Tweet)) (k : String)
    (v t : Tweet) (hpre : k ∉ pre.map Prod.fst) :
    dictInsert (pre ++ (k, v) :: post) k t =
      pre ++ (k, t) :: post.map (fun e => if e.1 = k then (k, t) else e) := by
  have ha : (pre ++ (k, v) :: post).any (fun e => e.1 = k) = true := by
    simp [List.any_append, List.any_cons]
  unfold dictInsert
  rw [if_pos ha, List.map_append, List.map_cons]
  rw [map_overwrite_id pre k t hpre]
  simp

theorem dictFind_middle (pre post : List (String × Tweet)) (k : String)
    (v : Tweet) (hpre : k ∉ pre.map Prod.fst) :
    dictFind (pre ++ (k, v) :: post) k = some v := by
  unfold dictFind
  rw [List.find?_append]
  have h1 : pre.find? (fun e => e.1 = k) = none := by
    rw [List.find?_eq_none]
    intro e he
    simp only [decide_eq_true_eq]
    intro hc
    exact hpre (hc ▸ List.mem_map_of_mem Prod.fst he)
  rw [h1]
  simp

theorem buildDict_overwrite (ts : List Tweet) :
    ∀ pre post (k : String) (v1 v2 : Tweet), k ∉ pre.map Prod.fst →
      ts.any (fun r => r.tweet_id = some k) = true →
      buildDict (pre ++ (k, v1) :: post) ts =
        buildDict (pre ++ (k, v2) :: post) ts := by
  induction ts with
  | nil =>
    intro pre post k v1 v2 _ hany
    simp at hany
  | cons t ts ih =>
    intro pre post k v1 v2 hpre hany
    cases ht : t.tweet_id with
    | none =>
      have h0 : ∀ m, buildDict m (t :: ts) = buildDict m ts := by
        intro m
        rw [buildDict, ht]
      rw [h0, h0]
      apply ih pre post k v1 v2 hpre
      have hhead : (decide (t.tweet_id = some k)) = false := by simp [ht]
      rw [List.any_cons, hhead, Bool.false_or] at hany
      exact hany
    | some k0 =>
      have h0 : ∀ m, buildDict m (t :: ts) = buildDict (dictInsert m k0 t) ts := by
        intro m
        rw [buildDict, ht]
      rw [h0, h0]
      by_cases hk : k0 = k
      · subst hk
        rw [dictInsert_middle pre post k0 v1 t hpre,
          dictInsert_middle pre post k0 v2 t hpre]
      · have hany2 : ts.any (fun r => r.tweet_id = some k) = true := by
          have hhead : (decide (t.tweet_id = some k)) = false := by simp [ht, hk]
          rw [List.any_cons, hhead, Bool.false_or] at hany
          exact hany
        have hkne : ¬((k : String) = k0) := fun h => hk h.symm
        cases ha : (pre ++ (k, v1) :: post).any (fun e => e.1 = k0) with
        | true =>
          have ha2 : (pre ++ (k, v2) :: post).any (fun e => e.1 = k0) = true := by
            rw [any_key_iff] at ha ⊢
            simpa [List.map_append] using ha
          unfold dictInsert
          rw [if_pos ha, if_pos ha2, List.map_append, List.map_append,
            List.map_cons, List.map_cons]
          simp only [if_neg hkne]
          exact ih _ _ k v1 v2 (not_mem_keys_map_overwrite pre k0 t k hpre) hany2
        | false =>
          have ha2 : (pre ++ (k, v2) :: post).any (fun e => e.1 = k0) = false := by
            cases hb : (pre ++ (k, v2) :: post).any (fun e => e.1 = k0)
            · rfl
            · rw [any_key_iff] at hb
              have : k0 ∈ (pre ++ (k, v1) :: post).map Prod.fst := by
                simpa [List.map_append] using hb
              rw [← any_key_iff] at this
              rw [ha] at this
              exact absurd this (by simp)
          have e1 : dictInsert (pre ++ (k, v1) :: post) k0 t =
              pre ++ (k, v1) :: (post ++ [(k0, t)]) := by
            unfold dictInsert
            rw [if_neg (by simp [ha])]
            simp
          have e2 : dictInsert (pre ++ (k, v2) :: post) k0 t =
              pre ++ (k, v2) :: (post ++ [(k0, t)]) := by
            unfold dictInsert
            rw [if_neg (by simp [ha2])]
            simp
          rw [e1, e2]
          exact ih pre (post ++ [(k0, t)]) k v1 v2 hpre hany2

theorem buildDict_unwritten (ts : List Tweet) :
    ∀ pre post (k : String) (v : Tweet), k ∉ pre.map Prod.fst →
      k ∉ post.map Prod.fst →
      ts.any (fun r => r.tweet_id = some k) = false →
      ∃ pre2 post2, buildDict (pre ++ (k, v) :: post) ts = pre2 ++ (k, v) :: post2 ∧
        k ∉ pre2.map Prod.fst ∧ k ∉ post2.map Prod.fst := by
  induction ts with
  | nil =>
    intro pre post k v h1 h2 _
    exact ⟨pre, post, rfl, h1, h2⟩
  | cons t ts ih =>
    intro pre post k v h1 h2 hany
    rw [List.any_cons, Bool.or_eq_false_iff] at hany
    obtain ⟨hhead, hany2⟩ := hany
    cases ht : t.tweet_id with
    | none =>
      have h0 : buildDict (pre ++ (k, v) :: post) (t :: ts) =
          buildDict (pre ++ (k, v) :: post) ts := by
        rw [buildDict, ht]
      rw [h0]
      exact ih pre post k v h1 h2 hany2
    | some k0 =>
      have hk : k0 ≠ k := by
        intro h
        subst h
        rw [ht] at hhead
        simp at hhead
      have h0 : buildDict (pre ++ (k, v) :: post) (t :: ts) =
          buildDict (dictInsert (pre ++ (k, v) :: post) k0 t) ts := by
        rw [buildDict, ht]
      rw [h0]
      cases ha : (pre ++ (k, v) :: post).any (fun e => e.1 = k0) with
      | true =>
        have e1 : dictInsert (pre ++ (k, v) :: post) k0 t =
            pre.map (fun e => if e.1 = k0 then (k0, t) else e) ++
              (k, v) :: post.map (fun e => if e.1 = k0 then (k0, t) else e) := by
          unfold dictInsert
          rw [if_pos ha, List.map_append, List.map_cons]
          rw [if_neg (fun h => hk h.symm)]
        rw [e1]
        exact ih _ _ k v (not_mem_keys_map_overwrite pre k0 t k h1)
          (not_mem_keys_map_overwrite post k0 t k h2) hany2
      | false =>
        have e1 : dictInsert (pre ++ (k, v) :: post) k0 t =
            pre ++ (k, v) :: (post ++ [(k0, t)]) := by
          unfold dictInsert
          rw [if_neg (by simp [ha])]
          simp
        rw [e1]
        apply ih pre (post ++ [(k0, t)]) k v h1 ?_ hany2
        rw [List.map_append, List.mem_append]
        rintro (hc | hc)
        · exact h2 hc
        · simp at hc
          exact hk hc.symm

theorem buildDict_twice (n : List Tweet) :
    ∀ m, (m.map Prod.fst).Nodup → buildDict (buildDict m n) n = buildDict m n := by
  induction n with
  | nil =>
    intro m _
    rfl
  | cons t ts ih =>
    intro m hm
    cases ht : t.tweet_id with
    | none =>
      have h0 : buildDict m (t :: ts) = buildDict m ts := by
        rw [buildDict, ht]
      rw [h0]
      have h1 : buildDict (buildDict m ts) (t :: ts) =
          buildDict (buildDict m ts) ts := by
        rw [buildDict, ht]
      rw [h1]
      exact ih m hm
    | some k =>
      have h0 : buildDict m (t :: ts) = buildDict (dictInsert m k t) ts := by
        rw [buildDict, ht]
      rw [h0]
      have hm1nd : ((dictInsert m k t).map Prod.fst).Nodup :=
        keys_nodup_dictInsert m k t hm
      have hNnd : ((buildDict (dictInsert m k t) ts).map Prod.fst).Nodup :=
        keys_nodup_buildDict ts (dictInsert m k t) hm1nd
      have hkN : k ∈ (buildDict (dictInsert m k t) ts).map Prod.fst :=
        mem_keys_buildDict_mono ts (dictInsert m k t) k (mem_keys_dictInsert m k t)
      obtain ⟨pre, w, post, hdecomp, hpre, hpost⟩ :=
        keys_decomp (buildDict (dictInsert m k t) ts) k hkN hNnd
      have h1 : buildDict (buildDict (dictInsert m k t) ts) (t :: ts) =
          buildDict (dictInsert (buildDict (dictInsert m k t) ts) k t) ts := by
        rw [buildDict, ht]
      rw [h1, hdecomp, dictInsert_middle pre post k w t hpre,
        map_overwrite_id post k t hpost]
      cases hw : ts.any (fun r => r.tweet_id = some k) with
      | true =>
        rw [buildDict_overwrite ts pre post k t w hpre hw, ← hdecomp]
        exact ih (dictInsert m k t) hm1nd
      | false =>
        have hfind : dictFind (buildDict (dictInsert m k t) ts) k = some t := by
          rw [dictFind_buildDict ts (dictInsert m k t) k]
          have hlw : lastWith ts k = none := by
            unfold lastWith
            rw [List.getLast?_eq_none_iff, List.filter_eq_nil_iff]
            intro a haa
            rw [List.any_eq_false] at hw
            simpa using hw a haa
          rw [hlw, Option.none_or, dictFind_dictInsert_self]
        have hfind2 : dictFind (buildDict (dictInsert m k t) ts) k = some w := by
          rw [hdecomp]
          exact dictFind_middle pre post k w hpre
        have hwt : w = t :=
          (Option.some_inj.mp (hfind.symm.trans hfind2)).symm
        rw [hwt] at hdecomp
        rw [hwt, ← hdecomp]
        exact ih (dictInsert m k t) hm1nd

theorem buildDict_rebuild (M : List (String × Tweet)) :
    ∀ m, (∀ e ∈ M, e.2.tweet_id = some e.1) → ((m ++ M).map Prod.fst).Nodup →
      buildDict m (M.map Prod.snd) = m ++ M := by
  induction M with
  | nil =>
    intro m _ _
    simp [buildDict]
  | cons e M ih =>
    intro m hwf hnd
    obtain ⟨k, v⟩ := e
    have hv : v.tweet_id = some k := hwf (k, v) (by simp)
    have hkm : k ∉ m.map Prod.fst := by
      rw [List.map_append, List.nodup_append] at hnd
      obtain ⟨_, _, hdisj⟩ := hnd
      intro hc
      exact hdisj hc (by simp)
    have e1 : dictInsert m k v = m ++ [(k, v)] := by
      unfold dictInsert
      rw [if_neg ?_]
      intro hc
      exact hkm ((any_key_iff m k).1 hc)
    have h0 : buildDict m ((k, v).2 :: M.map Prod.snd) =
        buildDict (dictInsert m k v) (M.map Prod.snd) := by
      rw [buildDict, hv]
    rw [List.map_cons, h0, e1]
    have hnd2 : (((m ++ [(k, v)]) ++ M).map Prod.fst).Nodup := by
      rw [List.append_assoc]
      simpa using hnd
    rw [ih (m ++ [(k, v)]) (fun e he => hwf e (List.mem_cons_of_mem _ he)) hnd2]
    rw [List.append_assoc]
    rfl

theorem filter_vals_nokey (M : List (String × Tweet)) (k : String)
    (hk : k ∉ M.map Prod.fst) (hwf : ∀ e ∈ M, e.2.tweet_id = some e.1) :
    (M.map Prod.snd).filter (fun t => t.tweet_id = some k) = [] := by
  rw [List.filter_eq_nil_iff]
  intro t ht
  rw [List.mem_map] at ht
  obtain ⟨e, he, rfl⟩ := ht
  rw [decide_eq_true_eq, hwf e he, Option.some.injEq]
  intro hc
  exact hk (hc ▸ List.mem_map_of_mem Prod.fst he)

theorem filter_vals_eq_find (M : List (String × Tweet)) (k : String) :
    (M.map Prod.fst).Nodup → (∀ e ∈ M, e.2.tweet_id = some e.1) →
    (M.map Prod.snd).filter (fun t => t.tweet_id = some k) =
      (dictFind M k).toList := by
  induction M with
  | nil =>
    intro _ _
    rfl
  | cons e M ih =>
    intro hnd hwf
    obtain ⟨k0, v⟩ := e
    have hv : v.tweet_id = some k0 := hwf (k0, v) (by simp)
    rw [List.map_cons, List.nodup_cons] at hnd
    obtain ⟨hk0, hnd2⟩ := hnd
    rw [List.map_cons, List.filter_cons]
    by_cases hkk : k0 = k
    · subst hkk
      rw [if_pos (by simp [hv])]
      rw [filter_vals_nokey M k0 hk0 (fun e he => hwf e (List.mem_cons_of_mem _ he))]
      unfold dictFind
      rw [List.find?_cons_of_pos _ (by simp)]
      rfl
    · rw [if_neg (by simp [hv, hkk])]
      unfold dictFind
      rw [List.find?_cons_of_neg _ (by simp [hkk])]
      exact ih hnd2 (fun e he => hwf e (List.mem_cons_of_mem _ he))

/-- C4: when every input record carries an id, the merged final set
contains exactly one record per distinct id — its id list is
duplicate-free, and for every id `k` the records of the final set with id
`k` are exactly the LAST record with id `k` of `persisted ++
newly_collected` (so newly-collected overrides persisted, and within a
list later entries override earlier ones). -/
theorem C4_merge_dedup (persisted newly : List Tweet)
    (_hids : ∀ t ∈ persisted ++ newly, (Tweet.tweet_id t).isSome = true) :
    ((mergeFinal persisted newly).map (fun t => t.tweet_id)).Nodup ∧
    ∀ k : String,
      (mergeFinal persisted newly).filter (fun t => t.tweet_id = some k) =
        (((persisted ++ newly).filter
            (fun t => t.tweet_id = some k)).getLast?).toList := by
  have hwf : ∀ e ∈ buildDict [] (persisted ++ newly), e.2.tweet_id = some e.1 :=
    entries_wf_buildDict (persisted ++ newly) [] (by simp)
  have hnd : ((buildDict [] (persisted ++ newly)).map Prod.fst).Nodup :=
    keys_nodup_buildDict (persisted ++ newly) [] (by simp)
  constructor
  · unfold mergeFinal
    rw [List.map_map]
    have hcg : (buildDict [] (persisted ++ newly)).map
          ((fun t => t.tweet_id) ∘ (fun e : String × Tweet => e.2)) =
        (buildDict [] (persisted ++ newly)).map (fun e => some e.1) := by
      apply List.map_congr_left
      intro e he
      exact hwf e he
    rw [hcg]
    have hform : (buildDict [] (persisted ++ newly)).map
          (fun e : String × Tweet => some e.1) =
        ((buildDict [] (persisted ++ newly)).map Prod.fst).map some := by
      rw [List.map_map]
      rfl
    rw [hform]
    exact hnd.map (Option.some_injective String)
  · intro k
    unfold mergeFinal
    rw [show (fun e : String × Tweet => e.2) = Prod.snd from rfl]
    rw [filter_vals_eq_find (buildDict [] (persisted ++ newly)) k hnd hwf]
    rw [dictFind_buildDict (persisted ++ newly) [] k]
    rw [show dictFind [] k = none from rfl, Option.or_none]
    rfl

/-- C4 witness at `persisted = [exP1, exP2]`, `newly = [exP1b]`: all
records carry an id, the merged ids are duplicate-free, and for id 1 the
surviving record is the later-applied `exP1b`. -/
theorem C4_merge_dedup_witness :
    ((mergeFinal [exP1, exP2] [exP1b]).map (fun t => t.tweet_id)).Nodup ∧
    (mergeFinal [exP1, exP2] [exP1b]).filter
        (fun t => t.tweet_id = some "1") =
      ((([exP1, exP2] ++ [exP1b]).filter
          (fun t => t.tweet_id = some "1")).getLast?).toList := by
  have h := C4_merge_dedup [exP1, exP2] [exP1b] (by decide)
  exact ⟨h.1, h.2 "1"⟩

/-- C9: merging a persisted set with a newly-collected list and then
merging the result with the same newly-collected list again yields the
same final set as merging once — repeated merge with identical input is
not cumulative. -/
theorem C9_merge_idempotent (persisted newly : List Tweet) :
    mergeFinal (mergeFinal persisted newly) newly = mergeFinal persisted newly := by
  unfold mergeFinal
  have hwf : ∀ e ∈ buildDict [] (persisted ++ newly), e.2.tweet_id = some e.1 :=
    entries_wf_buildDict (persisted ++ newly) [] (by simp)
  have hnd : ((buildDict [] (persisted ++ newly)).map Prod.fst).Nodup :=
    keys_nodup_buildDict (persisted ++ newly) [] (by simp)
  rw [show (fun e : String × Tweet => e.2) = Prod.snd from rfl]
  rw [buildDict_append]
  rw [buildDict_rebuild (buildDict [] (persisted ++ newly)) [] hwf
    (by simpa using hnd)]
  rw [List.nil_append]
  rw [buildDict_append persisted newly []]
  rw [buildDict_twice newly (buildDict [] persisted)
    (keys_nodup_buildDict persisted [] (by simp))]

/-! ### Thread-reconstruction lemmas -/

theorem map_orderedInsert {α β : Type} (r : α → α → Prop) [DecidableRel r]
    (s : β → β → Prop) [DecidableRel s] (f : α → β)
    (hrs : ∀ a b, r a b ↔ s (f a) (f b)) (a : α) (l : List α) :
    (List.orderedInsert r a l).map f = List.orderedInsert s (f a) (l.map f) := by
  induction l with
  | nil => rfl
  | cons b l ih =>
    by_cases h : r a b
    · have hs := (hrs a b).1 h
      simp only [List.orderedInsert_of_le r l h, List.map_cons,
        List.orderedInsert_of_le s (List.map f l) hs]
    · have h2 : ¬s (f a) (f b) := fun hc => h ((hrs a b).2 hc)
      simp only [List.orderedInsert, if_neg h, if_neg h2, List.map_cons, ih]

theorem map_insertionSort {α β : Type} (r : α → α → Prop) [DecidableRel r]
    (s : β → β → Prop) [DecidableRel s] (f : α → β)
    (hrs : ∀ a b, r a b ↔ s (f a) (f b)) (l : List α) :
    (List.insertionSort r l).map f = List.insertionSort s (l.map f) := by
  induction l with
  | nil => rfl
  | cons a l ih =>
    simp only [List.insertionSort, List.map_cons]
    rw [map_orderedInsert r s f hrs, ih]

theorem getTw_of_mem_enum (ts : List Tweet) (p : Nat × Tweet)
    (h : p ∈ ts.enum) : getTw ts p.1 = p.2 := by
  obtain ⟨i, t⟩ := p
  have h2 : ts[i]? = some t := by
    have h3 := (List.mk_mem_enumFrom_iff_le_and_getElem?_sub).1 h
    simpa using h3.2
  unfold getTw
  rw [List.getD_eq_getElem?_getD, h2]
  rfl

theorem enum_snd_eq_of_fst_eq (ts : List Tweet) (p q : Nat × Tweet)
    (hp : p ∈ ts.enum) (hq : q ∈ ts.enum) (hfst : p.1 = q.1) : p.2 = q.2 := by
  have h1 := getTw_of_mem_enum ts p hp
  have h2 := getTw_of_mem_enum ts q hq
  rw [← h1, ← h2, hfst]

theorem any_fst_iff {β : Type} (m : List (String × β)) (k : String) :
    m.any (fun e => e.1 = k) = true ↔ k ∈ m.map Prod.fst := by
  simp [List.any_eq_true]

theorem writeAnns_not_mem (u : String) (n : Nat) (l : List (Nat × Nat))
    (ann : Nat → Option ThreadAnn) (j : Nat) (h : j ∉ l.map Prod.snd) :
    writeAnns u n l ann j = ann j := by
  induction l generalizing ann with
  | nil => rfl
  | cons p l ih =>
    rw [List.map_cons, List.mem_cons] at h
    push_neg at h
    unfold writeAnns
    rw [List.foldl_cons]
    have step := ih (fun j2 => if j2 = p.2 then some (groupAnnValue u n p.1) else ann j2)
      (fun hc => h.2 hc)
    unfold writeAnns at step
    rw [step]
    simp [h.1]

theorem writeAnns_mem (u : String) (n : Nat) (l : List (Nat × Nat))
    (ann : Nat → Option ThreadAnn) (p j : Nat)
    (hnd : (l.map Prod.snd).Nodup) (hmem : (p, j) ∈ l) :
    writeAnns u n l ann j = some (groupAnnValue u n p) := by
  induction l generalizing ann with
  | nil => simp at hmem
  | cons q l ih =>
    rw [List.map_cons, List.nodup_cons] at hnd
    obtain ⟨hq, hnd2⟩ := hnd
    rw [List.mem_cons] at hmem
    unfold writeAnns
    rw [List.foldl_cons]
    rcases hmem with h | h
    · have hj : j = q.2 := by rw [← h]
      have hp : q.1 = p := by rw [← h]
      have hjl : j ∉ l.map Prod.snd := hj ▸ hq
      have step := writeAnns_not_mem u n l
        (fun j2 => if j2 = q.2 then some (groupAnnValue u n q.1) else ann j2) j hjl
      unfold writeAnns at step
      rw [step]
      simp [hj, hp]
    · exact ih _ hnd2 h

theorem sortMembers_perm (ts : List Tweet) (ms : List Nat) :
    (sortMembers ts ms).Perm ms := by
  unfold sortMembers
  split
  · exact List.perm_insertionSort _ ms
  · exact List.Perm.refl ms

theorem processGroups_ord (ts : List Tweet) (gs : List (String × List Nat)) :
    ∀ ann ordIdx, (processGroups ts gs ann ordIdx).2 =
      ordIdx ++ (gs.map (fun g => sortMembers ts g.2)).flatten := by
  induction gs with
  | nil =>
    intro ann ordIdx
    simp [processGroups]
  | cons g gs ih =>
    intro ann ordIdx
    unfold processGroups processGroup
    rw [ih]
    simp [List.append_assoc]

theorem processGroups_ann_not_mem (ts : List Tweet)
    (gs : List (String × List Nat)) :
    ∀ ann ordIdx j, (∀ g ∈ gs, j ∉ g.2) →
      (processGroups ts gs ann ordIdx).1 j = ann j := by
  induction gs with
  | nil =>
    intro ann ordIdx j _
    rfl
  | cons g gs ih =>
    intro ann ordIdx j h
    unfold processGroups processGroup
    rw [ih _ _ j (fun g2 hg2 => h g2 (List.mem_cons_of_mem _ hg2))]
    apply writeAnns_not_mem
    rw [List.enum_map_snd]
    intro hc
    exact h g (List.mem_cons_self _ _)
      (((sortMembers_perm ts g.2).mem_iff).1 hc)

theorem processGroups_ann_mem (ts : List Tweet)
    (gs : List (String × List Nat)) :
    ∀ ann ordIdx,
      List.Pairwise (fun g1 g2 => ∀ j, j ∈ g1.2 → j ∉ g2.2) gs →
      ∀ g ∈ gs, (g.2).Nodup → ∀ p j, (p, j) ∈ (sortMembers ts g.2).enum →
        (processGroups ts gs ann ordIdx).1 j =
          some (groupAnnValue g.1 (sortMembers ts g.2).length p) := by
  induction gs with
  | nil =>
    intro ann ordIdx _ g hg
    simp at hg
  | cons g0 gs ih =>
    intro ann ordIdx hpw g hg hnd p j hpj
    rw [List.pairwise_cons] at hpw
    obtain ⟨hdisj, hpw2⟩ := hpw
    have hjmem : j ∈ sortMembers ts g.2 := by
      have := List.snd_mem_of_mem_enumFrom hpj
      simpa using this
    have hjg : j ∈ g.2 := ((sortMembers_perm ts g.2).mem_iff).1 hjmem
    rw [List.mem_cons] at hg
    rcases hg with h | h
    · subst h
      unfold processGroups processGroup
      rw [processGroups_ann_not_mem ts gs _ _ j
        (fun g2 hg2 => hdisj g2 hg2 j hjg)]
      apply writeAnns_mem
      · rw [List.enum_map_snd]
        exact ((sortMembers_perm ts g.2).nodup_iff).2 hnd
      · exact hpj
    · unfold processGroups processGroup
      exact ih _ _ hpw2 g h hnd p j hpj

theorem fold_fresh_not_mem (ks : List String) (us : List String) :
    ∀ acc, (∀ x ∈ acc, x ∉ ks) →
      ∀ x ∈ us.foldl (fun a u => if u ∈ ks ∨ u ∈ a then a else a ++ [u]) acc,
        x ∉ ks := by
  induction us with
  | nil =>
    intro acc hacc x hx
    exact hacc x hx
  | cons u0 us ih =>
    intro acc hacc x hx
    rw [List.foldl_cons] at hx
    by_cases hc : u0 ∈ ks ∨ u0 ∈ acc
    · rw [if_pos hc] at hx
      exact ih acc hacc x hx
    · rw [if_neg hc] at hx
      push_neg at hc
      refine ih (acc ++ [u0]) ?_ x hx
      intro y hy
      rw [List.mem_append] at hy
      rcases hy with hy | hy
      · exact hacc y hy
      · simp at hy
        rw [hy]
        exact hc.1

theorem fold_fresh_nodup (ks : List String) (us : List String) :
    ∀ acc, acc.Nodup →
      (us.foldl (fun a u => if u ∈ ks ∨ u ∈ a then a else a ++ [u]) acc).Nodup := by
  induction us with
  | nil =>
    intro acc hacc
    exact hacc
  | cons u0 us ih =>
    intro acc hacc
    rw [List.foldl_cons]
    by_cases hc : u0 ∈ ks ∨ u0 ∈ acc
    · rw [if_pos hc]
      exact ih acc hacc
    · rw [if_neg hc]
      push_neg at hc
      refine ih (acc ++ [u0]) ?_
      simp [List.nodup_append, hacc, hc.2]

theorem mem_handlesDiscovered (its : List (Nat × Tweet)) :
    ∀ ks u, u ∈ handlesDiscovered ks its → u ∉ ks := by
  induction its with
  | nil =>
    intro ks u h
    simp [handlesDiscovered] at h
  | cons it rest ih =>
    intro ks u h
    cases ht : it.2.reply_to_usernames with
    | none =>
      rw [handlesDiscovered, ht] at h
      exact ih ks u h
    | some us =>
      rw [handlesDiscovered, ht] at h
      simp only [List.mem_append] at h
      rcases h with h | h
      · exact fold_fresh_not_mem ks us [] (by simp) u h
      · intro hc
        exact ih _ u h (List.mem_append_left _ hc)

theorem nodup_handlesDiscovered (its : List (Nat × Tweet)) :
    ∀ ks, (handlesDiscovered ks its).Nodup := by
  induction its with
  | nil =>
    intro ks
    simp [handlesDiscovered]
  | cons it rest ih =>
    intro ks
    cases ht : it.2.reply_to_usernames with
    | none =>
      rw [handlesDiscovered, ht]
      exact ih ks
    | some us =>
      rw [handlesDiscovered, ht]
      rw [List.nodup_append]
      refine ⟨fold_fresh_nodup ks us [] (by simp), ih _, ?_⟩
      intro x hx hx2
      exact mem_handlesDiscovered rest _ x hx2 (List.mem_append_right _ hx)

theorem fresh_singleton (ks : List String) (u : String) :
    [u].foldl (fun a x => if x ∈ ks ∨ x ∈ a then a else a ++ [x]) [] =
      if u ∈ ks then [] else [u] := by
  simp

theorem handlesDiscovered_cons_none (ks : List String) (it : Nat × Tweet)
    (rest : List (Nat × Tweet)) (ht : it.2.reply_to_usernames = none) :
    handlesDiscovered ks (it :: rest) = handlesDiscovered ks rest := by
  rw [handlesDiscovered, ht]

theorem handlesDiscovered_cons_single (ks : List String) (it : Nat × Tweet)
    (rest : List (Nat × Tweet)) (u : String)
    (ht : it.2.reply_to_usernames = some [u]) :
    handlesDiscovered ks (it :: rest) =
      (if u ∈ ks then [] else [u]) ++
        handlesDiscovered (ks ++ (if u ∈ ks then [] else [u])) rest := by
  rw [handlesDiscovered, ht]
  dsimp only
  rw [fresh_singleton ks u]

theorem idxWith_cons_none (it : Nat × Tweet) (rest : List (Nat × Tweet))
    (u : String) (ht : it.2.reply_to_usernames = none) :
    idxWith (it :: rest) u = idxWith rest u := by
  unfold idxWith
  rw [List.filter_cons, if_neg (by simp [hasHandle, ht])]

theorem idxWith_cons_single (it : Nat × Tweet) (rest : List (Nat × Tweet))
    (u u0 : String) (ht : it.2.reply_to_usernames = some [u0]) :
    idxWith (it :: rest) u =
      if u = u0 then it.1 :: idxWith rest u else idxWith rest u := by
  unfold idxWith
  rw [List.filter_cons]
  by_cases hu : u = u0
  · rw [if_pos (by simp [hasHandle, ht, hu]), if_pos hu, List.map_cons]
  · rw [if_neg (by simp [hasHandle, ht, hu]), if_neg hu]

theorem addToThread_present (ths : List (String × List Nat)) (u : String)
    (i : Nat) (ha : ths.any (fun e => e.1 = u) = true) :
    addToThread ths u i =
      ths.map (fun e => if e.1 = u then (e.1, e.2 ++ [i]) else e) := by
  unfold addToThread
  rw [if_pos ha]

theorem addToThread_absent (ths : List (String × List Nat)) (u : String)
    (i : Nat) (ha : ths.any (fun e => e.1 = u) = false) :
    addToThread ths u i = ths ++ [(u, [i])] := by
  unfold addToThread
  rw [if_neg (by simp [ha])]

theorem addToThread_keys_present (ths : List (String × List Nat)) (u : String)
    (i : Nat) (ha : ths.any (fun e => e.1 = u) = true) :
    (addToThread ths u i).map Prod.fst = ths.map Prod.fst := by
  rw [addToThread_present ths u i ha, List.map_map]
  apply List.map_congr_left
  intro e _
  by_cases he : e.1 = u <;> simp [he]

theorem buildThreads_char (its : List (Nat × Tweet)) :
    ∀ (ths : List (String × List Nat)) (sa : List Nat),
      (∀ it ∈ its, ∀ us, (it.2).reply_to_usernames = some us → us.length = 1) →
      buildThreads its ths sa =
        (ths.map (fun e => (e.1, e.2 ++ idxWith its e.1)) ++
          (handlesDiscovered (ths.map Prod.fst) its).map
            (fun u => (u, idxWith its u)),
         sa ++ (its.filter (fun it => it.2.reply_to_usernames = none)).map
            Prod.fst) := by
  induction its with
  | nil =>
    intro ths sa _
    simp [buildThreads, idxWith, handlesDiscovered]
  | cons it rest ih =>
    intro ths sa hyp
    have hyp2 : ∀ it2 ∈ rest, ∀ us,
        (it2.2).reply_to_usernames = some us → us.length = 1 :=
      fun it2 h2 => hyp it2 (List.mem_cons_of_mem _ h2)
    cases ht : it.2.reply_to_usernames with
    | none =>
      have h0 : buildThreads (it :: rest) ths sa =
          buildThreads rest ths (sa ++ [it.1]) := by
        rw [buildThreads, ht]
      rw [h0, ih ths (sa ++ [it.1]) hyp2, Prod.mk.injEq]
      constructor
      · rw [handlesDiscovered_cons_none _ it rest ht]
        congr 1
        · apply List.map_congr_left
          intro e _
          rw [idxWith_cons_none it rest e.1 ht]
        · apply List.map_congr_left
          intro u _
          rw [idxWith_cons_none it rest u ht]
      · rw [List.filter_cons, if_pos (by simp [ht])]
        simp
    | some us =>
      obtain ⟨u, rfl⟩ := List.length_eq_one.1 (hyp it (List.mem_cons_self _ _) us ht)
      have h0 : buildThreads (it :: rest) ths sa =
          buildThreads rest (addToThread ths u it.1) sa := by
        rw [buildThreads, ht]
        rfl
      rw [h0, ih (addToThread ths u it.1) sa hyp2, Prod.mk.injEq]
      constructor
      · by_cases hu : u ∈ ths.map Prod.fst
        · -- the handle already has a group: in-place append
          have ha : ths.any (fun e => e.1 = u) = true := (any_fst_iff ths u).2 hu
          rw [addToThread_keys_present ths u it.1 ha,
            addToThread_present ths u it.1 ha,
            handlesDiscovered_cons_single _ it rest u ht,
            if_pos hu, List.nil_append, List.append_nil]
          congr 1
          · rw [List.map_map]
            apply List.map_congr_left
            intro e _
            by_cases he1 : e.1 = u
            · simp [Function.comp, he1, idxWith_cons_single it rest u u ht]
            · simp [Function.comp, idxWith_cons_single it rest e.1 u ht, he1]
          · apply List.map_congr_left
            intro u2 hu2
            have hnk : u2 ∉ ths.map Prod.fst :=
              mem_handlesDiscovered rest _ u2 hu2
            have hne : u2 ≠ u := fun hh => hnk (hh ▸ hu)
            rw [idxWith_cons_single it rest u2 u ht, if_neg hne]
        · -- fresh handle: appended at the end
          have ha : ths.any (fun e => e.1 = u) = false := by
            cases hb : ths.any (fun e => e.1 = u)
            · rfl
            · exact absurd ((any_fst_iff ths u).1 hb) hu
          rw [addToThread_absent ths u it.1 ha,
            handlesDiscovered_cons_single _ it rest u ht, if_neg hu]
          rw [List.map_append]
          have hkeys : ((ths ++ [(u, [it.1])]).map Prod.fst) =
              ths.map Prod.fst ++ [u] := by
            simp
          rw [hkeys, List.map_append, List.append_assoc]
          congr 1
          · apply List.map_congr_left
            intro e he
            have hemem : e.1 ∈ ths.map Prod.fst := List.mem_map_of_mem Prod.fst he
            have hne : e.1 ≠ u := fun hh => hu (hh ▸ hemem)
            rw [idxWith_cons_single it rest e.1 u ht, if_neg hne]
          · congr 1
            · simp [idxWith_cons_single it rest u u ht]
            · apply List.map_congr_left
              intro u2 hu2
              have hnk : u2 ∉ ths.map Prod.fst ++ [u] :=
                mem_handlesDiscovered rest _ u2 hu2
              have hne : u2 ≠ u := by
                intro hh
                exact hnk (hh ▸ List.mem_append_right _ (by simp))
              rw [idxWith_cons_single it rest u2 u ht, if_neg hne]
      · rw [List.filter_cons, if_neg (by simp [ht])]

theorem handlesDiscovered_eq_foldl (its : List (Nat × Tweet)) :
    ∀ ks, (∀ it ∈ its, ∀ us, (it.2).reply_to_usernames = some us → us.length = 1) →
      ks ++ handlesDiscovered ks its =
        its.foldl (fun acc it => specHandleStep acc it.2) ks := by
  induction its with
  | nil =>
    intro ks _
    simp [handlesDiscovered]
  | cons it rest ih =>
    intro ks hyp
    have hyp2 : ∀ it2 ∈ rest, ∀ us,
        (it2.2).reply_to_usernames = some us → us.length = 1 :=
      fun it2 h2 => hyp it2 (List.mem_cons_of_mem _ h2)
    rw [List.foldl_cons]
    cases ht : it.2.reply_to_usernames with
    | none =>
      rw [handlesDiscovered_cons_none ks it rest ht]
      have hstep : specHandleStep ks it.2 = ks := by
        unfold specHandleStep
        rw [ht]
      rw [hstep]
      exact ih ks hyp2
    | some us =>
      obtain ⟨u, rfl⟩ := List.length_eq_one.1 (hyp it (List.mem_cons_self _ _) us ht)
      have hstep : specHandleStep ks it.2 =
          if u ∈ ks then ks else ks ++ [u] := by
        unfold specHandleStep
        rw [ht]
        simp
      rw [hstep, handlesDiscovered_cons_single ks it rest u ht]
      have hfr : ks ++ (if u ∈ ks then [] else [u]) =
          if u ∈ ks then ks else ks ++ [u] := by
        by_cases hu : u ∈ ks <;> simp [hu]
      rw [← List.append_assoc, hfr]
      exact ih _ hyp2

theorem foldl_enum_snd {α : Type} (f : α → Tweet → α) (ts : List Tweet) (b : α) :
    ts.enum.foldl (fun acc it => f acc it.2) b = ts.foldl f b := by
  have h := List.foldl_map Prod.snd f ts.enum b
  rw [List.enum_map_snd] at h
  exact h.symm.trans (by rfl)

theorem specThreadHandles_eq (ts : List Tweet)
    (hyp : ∀ t ∈ ts, ∀ us, t.reply_to_usernames = some us → us.length = 1) :
    specThreadHandles ts = handlesDiscovered [] ts.enum := by
  have hyp2 : ∀ it ∈ ts.enum, ∀ us,
      (it.2).reply_to_usernames = some us → us.length = 1 := by
    intro it hit us hus
    exact hyp it.2 (List.snd_mem_of_mem_enumFrom hit) us hus
  have h1 := handlesDiscovered_eq_foldl ts.enum [] hyp2
  rw [List.nil_append] at h1
  rw [h1, foldl_enum_snd specHandleStep ts []]
  rfl

theorem map_snd_filter_enum (p : Tweet → Bool) (ts : List Tweet) :
    (ts.enum.filter (fun it => p it.2)).map Prod.snd = ts.filter p := by
  have h := List.filter_map Prod.snd ts.enum (p := p)
  rw [List.enum_map_snd] at h
  exact h.symm

theorem map_getTw_filter_enum (p : Tweet → Bool) (ts : List Tweet) :
    ((ts.enum.filter (fun it => p it.2)).map Prod.fst).map (getTw ts) =
      ts.filter p := by
  rw [List.map_map]
  have hcg : ∀ it ∈ ts.enum.filter (fun it => p it.2),
      (getTw ts ∘ Prod.fst) it = Prod.snd it := by
    intro it hit
    exact getTw_of_mem_enum ts it (List.mem_of_mem_filter hit)
  rw [List.map_congr_left hcg, map_snd_filter_enum p ts]

theorem idxWith_map_getTw (ts : List Tweet) (u : String) :
    (idxWith ts.enum u).map (getTw ts) = specGroupOf ts u := by
  unfold idxWith specGroupOf
  exact map_getTw_filter_enum (hasHandle u) ts

theorem nodup_idxWith (ts : List Tweet) (u : String) :
    (idxWith ts.enum u).Nodup := by
  unfold idxWith
  have hsub : List.Sublist
      ((ts.enum.filter (fun it => hasHandle u it.2)).map Prod.fst)
      (ts.enum.map Prod.fst) :=
    (List.filter_sublist _).map Prod.fst
  rw [List.enum_map_fst] at hsub
  exact (List.nodup_range _).sublist hsub

theorem hasHandle_of_mem_idxWith (ts : List Tweet) (u : String) (j : Nat)
    (h : j ∈ idxWith ts.enum u) : hasHandle u (getTw ts j) = true := by
  unfold idxWith at h
  rw [List.mem_map] at h
  obtain ⟨it, hit, hfst⟩ := h
  rw [List.mem_filter] at hit
  obtain ⟨hmem, hp⟩ := hit
  rw [← hfst, getTw_of_mem_enum ts it hmem]
  exact hp

theorem mem_ts_of_mem_idxWith (ts : List Tweet) (u : String) (j : Nat)
    (h : j ∈ idxWith ts.enum u) : getTw ts j ∈ ts := by
  unfold idxWith at h
  rw [List.mem_map] at h
  obtain ⟨it, hit, hfst⟩ := h
  rw [List.mem_filter] at hit
  rw [← hfst, getTw_of_mem_enum ts it hit.1]
  exact List.snd_mem_of_mem_enumFrom hit.1

theorem idxWith_disjoint (ts : List Tweet)
    (hyp : ∀ t ∈ ts, ∀ us, t.reply_to_usernames = some us → us.length = 1)
    (u v : String) (huv : u ≠ v) (j : Nat) (hu : j ∈ idxWith ts.enum u) :
    j ∉ idxWith ts.enum v := by
  intro hv
  have h1 := hasHandle_of_mem_idxWith ts u j hu
  have h2 := hasHandle_of_mem_idxWith ts v j hv
  have hmem := mem_ts_of_mem_idxWith ts u j hu
  cases ht : (getTw ts j).reply_to_usernames with
  | none =>
    unfold hasHandle at h1
    rw [ht] at h1
    exact Bool.false_ne_true h1
  | some us =>
    obtain ⟨w, rfl⟩ := List.length_eq_one.1 (hyp _ hmem us ht)
    unfold hasHandle at h1 h2
    rw [ht] at h1 h2
    simp at h1 h2
    exact huv (h1.trans h2.symm)

theorem map_eq_enum_map {α β : Type} (f : α → β) (l : List α) :
    l.map f = l.enum.map (fun p => f p.2) := by
  conv_lhs => rw [← List.enum_map_snd l]
  rw [List.map_map]
  rfl

theorem all_map_fun {α β : Type} (l : List α) (f : α → β) (p : β → Bool) :
    (l.map f).all p = l.all (fun a => p (f a)) := by
  induction l with
  | nil => rfl
  | cons a l ih => simp [List.all_cons, ih]

theorem group_render_eq (ts : List Tweet) (gs : List (String × List Nat))
    (hpw : List.Pairwise (fun g1 g2 => ∀ j, j ∈ g1.2 → j ∉ g2.2) gs)
    (u : String) (ms : List Nat) (hg : (u, ms) ∈ gs) (hnd : ms.Nodup)
    (hmap : ms.map (getTw ts) = specGroupOf ts u) :
    (sortMembers ts ms).map
        (renderTweet ts (processGroups ts gs (fun _ => none) []).1) =
      specAnnotGroup u (specGroupOf ts u) := by
  have hsortmap : (sortMembers ts ms).map (getTw ts) =
      if (specGroupOf ts u).all (fun t => t.timestamp.isSome) then
        List.insertionSort tsLe (specGroupOf ts u)
      else specGroupOf ts u := by
    have hcond : (specGroupOf ts u).all (fun t => t.timestamp.isSome) =
        ms.all (fun i => (getTw ts i).timestamp.isSome) := by
      rw [← hmap]
      exact all_map_fun ms (getTw ts) (fun t => t.timestamp.isSome)
    unfold sortMembers
    rw [hcond]
    by_cases hall : ms.all (fun i => (getTw ts i).timestamp.isSome) = true
    · rw [if_pos hall, if_pos hall, ← hmap]
      exact map_insertionSort (tsLeIdx ts) tsLe (getTw ts)
        (fun a b => Iff.rfl) ms
    · rw [if_neg hall, if_neg hall, hmap]
  unfold specAnnotGroup
  dsimp only
  rw [← hsortmap]
  rw [List.enum_map, List.map_map, List.length_map]
  rw [map_eq_enum_map (renderTweet ts (processGroups ts gs (fun _ => none) []).1)
    (sortMembers ts ms)]
  apply List.map_congr_left
  intro pj hpj
  have hpj2 : (pj.1, pj.2) ∈ (sortMembers ts ms).enum := by
    simpa using hpj
  have hann := processGroups_ann_mem ts gs (fun _ => none) [] hpw (u, ms) hg hnd
    pj.1 pj.2 hpj2
  unfold renderTweet
  rw [hann]
  rfl

/-- C7 (amended): provided every record's reply-target list, when
present, names exactly one handle, the Thread Reconstructor behaves
exactly as specified: records naming a handle are partitioned into
per-handle groups; a group whose members all have a timestamp is stably
sorted by timestamp; each member is annotated with its 1-based
thread_position, thread_size equal to the group size, and the
(handle, size)-derived thread_key; and the output is all thread groups in
handle-discovery order followed by all standalone records in discovery
order. -/
theorem C7_thread_reconstruction (tweets : List Tweet)
    (hyp : ∀ t ∈ tweets, ∀ us, t.reply_to_usernames = some us → us.length = 1) :
    group_related_tweets tweets = group_related_specification tweets := by
  have hyp2 : ∀ it ∈ tweets.enum, ∀ us,
      (it.2).reply_to_usernames = some us → us.length = 1 :=
    fun it hit us hus => hyp it.2 (List.snd_mem_of_mem_enumFrom hit) us hus
  have hchar := buildThreads_char tweets.enum [] [] hyp2
  simp only [List.map_nil, List.nil_append] at hchar
  have hHnd : (handlesDiscovered [] tweets.enum).Nodup :=
    nodup_handlesDiscovered tweets.enum []
  have hpw : List.Pairwise (fun g1 g2 : String × List Nat =>
        ∀ j, j ∈ g1.2 → j ∉ g2.2)
      ((handlesDiscovered [] tweets.enum).map
        (fun u => (u, idxWith tweets.enum u))) := by
    rw [List.pairwise_map]
    refine List.Pairwise.imp ?_ hHnd
    intro a b hab j hj
    exact idxWith_disjoint tweets hyp a b hab j hj
  show ((processGroups tweets (buildThreads tweets.enum [] []).1
        (fun _ => none) []).2 ++ (buildThreads tweets.enum [] []).2).map
      (renderTweet tweets
        (processGroups tweets (buildThreads tweets.enum [] []).1
          (fun _ => none) []).1) =
    group_related_specification tweets
  rw [hchar]
  dsimp only
  rw [processGroups_ord tweets _ (fun _ => none) []]
  rw [List.nil_append, List.map_append]
  unfold group_related_specification
  rw [specThreadHandles_eq tweets hyp]
  congr 1
  · rw [List.map_flatten, List.map_map, List.map_map]
    congr 1
    apply List.map_congr_left
    intro u hu
    exact group_render_eq tweets
      ((handlesDiscovered [] tweets.enum).map
        (fun u2 => (u2, idxWith tweets.enum u2)))
      hpw u (idxWith tweets.enum u)
      (List.mem_map_of_mem _ hu) (nodup_idxWith tweets u)
      (idxWith_map_getTw tweets u)
  · have hann : ∀ j ∈ (tweets.enum.filter
          (fun it => it.2.reply_to_usernames = none)).map Prod.fst,
        (processGroups tweets
            ((handlesDiscovered [] tweets.enum).map
              (fun u => (u, idxWith tweets.enum u)))
            (fun _ => none) []).1 j = none := by
      intro j hj
      apply processGroups_ann_not_mem
      intro g hgmem
      rw [List.mem_map] at hgmem
      obtain ⟨u, _, rfl⟩ := hgmem
      rw [List.mem_map] at hj
      obtain ⟨it, hit, hfst⟩ := hj
      rw [List.mem_filter] at hit
      obtain ⟨hmem, hnone⟩ := hit
      intro hjin
      have hh := hasHandle_of_mem_idxWith tweets u j hjin
      rw [← hfst, getTw_of_mem_enum tweets it hmem] at hh
      unfold hasHandle at hh
      have hn2 : it.2.reply_to_usernames = none := by simpa using hnone
      rw [hn2] at hh
      exact Bool.false_ne_true hh
    have hmapeq : ((tweets.enum.filter
          (fun it => it.2.reply_to_usernames = none)).map Prod.fst).map
          (renderTweet tweets
            (processGroups tweets
              ((handlesDiscovered [] tweets.enum).map
                (fun u => (u, idxWith tweets.enum u)))
              (fun _ => none) []).1) =
        ((tweets.enum.filter
          (fun it => it.2.reply_to_usernames = none)).map Prod.fst).map
          (getTw tweets) := by
      apply List.map_congr_left
      intro j hj
      unfold renderTweet
      rw [hann j hj]
    rw [hmapeq]
    exact map_getTw_filter_enum (fun t => t.reply_to_usernames = none) tweets

/-- C7 witness: the spec's own example.  For records
`[{id:1, handles:[a], ts:"2"}, {id:2, handles:[a], ts:"1"}]` (each naming
exactly one handle) the output order is id 2 then id 1 with
`thread_size = 2` on both and `thread_position` 1 and 2 respectively. -/
theorem C7_thread_reconstruction_witness :
    (group_related_tweets [exThreadT1, exThreadT2]).map
        (fun t => (t.tweet_id, t.thread_position, t.thread_size)) =
      [(some "2", some 1, some 2), (some "1", some 2, some 2)] := by
  have h := C7_thread_reconstruction [exThreadT1, exThreadT2] (by decide)
  rw [h]
  rfl

/-- C7 counterexample: for the input `[exMulti1, exMulti2]`, where
`exMulti1` replies to both handles `a` and `b`, handle `a`'s group has
two members, yet the first output record — a member of that group —
carries `thread_size = some 1`: the shared record object was re-annotated
by the later-processed singleton group of handle `b`, refuting the
claim's "thread_size equal to the group size" for every group member. -/
theorem C7_thread_reconstruction_counterexample :
    ([exMulti1, exMulti2].countP (fun t => hasHandle "a" t)) = 2 ∧
    hasHandle "a" ((group_related_tweets [exMulti1, exMulti2]).getD 0 default) =
      true ∧
    ((group_related_tweets [exMulti1, exMulti2]).getD 0 default).thread_size =
      some 1 :=
  ⟨by decide, by decide, by decide⟩

end Scraper
